import Mathlib

/-!
# Diff serialisation of the fleet editor and the system editor

A shallow embedding of `FleetEditor::WriteToFile` (src/source/FleetEditor.cpp)
and of the helpers it uses, and of the object array steps, `WriteObject` and
`WriteToFile` of the system editor (src/source/SystemEditor.cpp), followed by
theorems about the run-length ship writer, the personality flag writer and
delta, the variant list delta, the reindexing of the object array and the
object writer.

Conventions of the embedding:

* A `DataWriter` is modelled by the list of calls it receives: a flushed line
  with its tokens, `BeginChild`, `EndChild`.
* Tokens remember where they come from: a string literal of the source (or an
  entry of the name table), a string stored in a record, an `int`, a `double`.
* References to interned objects (government, phrase, outfitter, ship) are
  compared by identity in the source; an interned object is unique for its
  name, so it is modelled by a record holding that name and a null pointer by
  `none`.
* `int` bitmasks are modelled by the natural number with the same bit pattern;
  the writer only uses `^`, `&` and comparisons with zero on them.
* A `double` is modelled by a rational number (the writer only compares it for
  equality and with zero; NaN is outside the model).
* Dereferencing a null pointer is a fault: writers return `Except Fault`.
* A `std::vector` is modelled by the list of its elements. Where the code uses
  an iterator taken before an insertion, the capacity of the vector decides
  whether the iterator is still valid, and is a parameter of the step.
-/

namespace FleetEditor

/-- One token handed to `DataWriter::WriteToken`. -/
inductive Token where
  | lit (s : String)
  | str (s : String)
  | int (n : Int)
  | real (q : Rat)
  deriving DecidableEq

/-- One call received by the `DataWriter`. -/
inductive Out where
  | line (tokens : List Token)
  | beginChild
  | endChild
  deriving DecidableEq

/-- Why a run of the writer does not complete. -/
inductive Fault where
  | nullDeref
  | fuel
  | outOfBounds
  deriving DecidableEq

deriving instance DecidableEq for Except

/-- An interned ship definition, identified by its variant name. -/
structure Ship where
  VariantName : String
  deriving DecidableEq

/-- The inner `while` of the ship loop: `cur` is `*copy`, the list is what
follows `copy`, and the result is the final value of `count`. -/
def countRun (cur : Option Ship) : List (Option Ship) → Nat → Nat
  | [], count => count
  | next :: rest, count =>
    if next = cur then countRun next rest (count + 1) else count

/-- The tokens of one ship line: the name of `*it`, then the count when it
exceeds one. Dereferencing a null `*it` is a fault. -/
def shipLine (it : Option Ship) (count : Nat) : Except Fault Out :=
  match it with
  | none => .error .nullDeref
  | some ship =>
    .ok (.line (.str ship.VariantName :: (if count > 1 then [.int count] else [])))

/-- The `for` loop over `variant.ships` (lines 818-832); the list is the range
from `it` to `end`, and `it += count` drops `count` elements. -/
def writeShipsLoop : Nat → List (Option Ship) → Except Fault (List Out)
  | _, [] => .ok []
  | 0, _ :: _ => .error .fuel
  | fuel + 1, it :: rest =>
    let count := countRun it rest 1
    match shipLine it count with
    | .error e => .error e
    | .ok l =>
      match writeShipsLoop fuel ((it :: rest).drop count) with
      | .error e => .error e
      | .ok ls => .ok (l :: ls)

/-- The ship loop run on a whole ship list; every iteration consumes at least
one ship, so the length of the list is enough fuel. -/
def writeShips (ships : List (Option Ship)) : Except Fault (List Out) :=
  writeShipsLoop ships.length ships

/-- The reading of one written ship line, in the words of the specification:
the value repeated `count` times, an omitted count meaning one. -/
def decodeEntry : Out → List Ship
  | .line [.str n] => [⟨n⟩]
  | .line [.str n, .int c] => List.replicate c.toNat ⟨n⟩
  | _ => []

/-- The expansion of a sequence of written ship lines, in order. -/
def Decode : List Out → List Ship
  | [] => []
  | l :: ls => decodeEntry l ++ Decode ls

/-- The ship named on a written ship line, if it is one. -/
def entryShip : Out → Option Ship
  | .line (.str n :: _) => some ⟨n⟩
  | _ => none

/-- A written ship line in canonical form: a name alone, or a name followed by
a count of at least two. -/
def CanonicalEntry : Out → Prop
  | .line [.str _] => True
  | .line [.str _, .int c] => 2 ≤ c
  | _ => False

/-- The number of leading elements of `rest` equal to `x`. -/
def runLen (x : Ship) (rest : List Ship) : Nat :=
  (rest.takeWhile (fun s => decide (s = x))).length

/-! ### Records -/

/-- An interned government, identified by its true name. -/
structure Government where
  TrueName : String
  deriving DecidableEq

/-- An interned phrase, identified by its name. -/
structure Phrase where
  Name : String
  deriving DecidableEq

/-- An interned outfitter (`Sale<Outfit>`), identified by its name. -/
structure Sale where
  name : String
  deriving DecidableEq

/-- The personality of a fleet: the `int` flag bitmask and the confusion
multiplier. -/
structure Personality where
  flags : Nat
  confusionMultiplier : Rat
  deriving DecidableEq

/-- One variant of a fleet (`Fleet::Variant`): a weight and a ship sequence,
whose entries may be null. -/
structure Variant where
  weight : Int
  ships : List (Option Ship)
  deriving DecidableEq

/-- A fleet record with the fields `WriteToFile` reads. The outfitter set is
held as the list of its elements in iteration order. -/
structure Fleet where
  fleetName : String
  government : Option Government
  names : Option Phrase
  fighterNames : Option Phrase
  cargo : Int
  commodities : List String
  outfitters : List Sale
  personality : Personality
  variants : List Variant
  deriving DecidableEq

/-! ### The personality name table -/

namespace Personality

/-- Modelled from the spec: the bit constants of `Personality` are declared
outside the provided sources; the specification fixes them as a stable
enumeration whose table runs from the lowest to the highest bit, so the
constant of table entry number `k` (counted from zero) is bit `k`. -/
def bit (k : Nat) : Nat := 1 <<< k

/-- Modelled from the spec: the constant `Personality::PACIFIST`, entry 0 of the table. -/
def PACIFIST : Nat := bit 0
/-- Modelled from the spec: the constant `Personality::FORBEARING`, entry 1 of the table. -/
def FORBEARING : Nat := bit 1
/-- Modelled from the spec: the constant `Personality::TIMID`, entry 2 of the table. -/
def TIMID : Nat := bit 2
/-- Modelled from the spec: the constant `Personality::DISABLES`, entry 3 of the table. -/
def DISABLES : Nat := bit 3
/-- Modelled from the spec: the constant `Personality::PLUNDERS`, entry 4 of the table. -/
def PLUNDERS : Nat := bit 4
/-- Modelled from the spec: the constant `Personality::HEROIC`, entry 5 of the table. -/
def HEROIC : Nat := bit 5
/-- Modelled from the spec: the constant `Personality::STAYING`, entry 6 of the table. -/
def STAYING : Nat := bit 6
/-- Modelled from the spec: the constant `Personality::ENTERING`, entry 7 of the table. -/
def ENTERING : Nat := bit 7
/-- Modelled from the spec: the constant `Personality::NEMESIS`, entry 8 of the table. -/
def NEMESIS : Nat := bit 8
/-- Modelled from the spec: the constant `Personality::SURVEILLANCE`, entry 9 of the table. -/
def SURVEILLANCE : Nat := bit 9
/-- Modelled from the spec: the constant `Personality::UNINTERESTED`, entry 10 of the table. -/
def UNINTERESTED : Nat := bit 10
/-- Modelled from the spec: the constant `Personality::WAITING`, entry 11 of the table. -/
def WAITING : Nat := bit 11
/-- Modelled from the spec: the constant `Personality::DERELICT`, entry 12 of the table. -/
def DERELICT : Nat := bit 12
/-- Modelled from the spec: the constant `Personality::FLEEING`, entry 13 of the table. -/
def FLEEING : Nat := bit 13
/-- Modelled from the spec: the constant `Personality::ESCORT`, entry 14 of the table. -/
def ESCORT : Nat := bit 14
/-- Modelled from the spec: the constant `Personality::FRUGAL`, entry 15 of the table. -/
def FRUGAL : Nat := bit 15
/-- Modelled from the spec: the constant `Personality::COWARD`, entry 16 of the table. -/
def COWARD : Nat := bit 16
/-- Modelled from the spec: the constant `Personality::VINDICTIVE`, entry 17 of the table. -/
def VINDICTIVE : Nat := bit 17
/-- Modelled from the spec: the constant `Personality::SWARMING`, entry 18 of the table. -/
def SWARMING : Nat := bit 18
/-- Modelled from the spec: the constant `Personality::UNCONSTRAINED`, entry 19 of the table. -/
def UNCONSTRAINED : Nat := bit 19
/-- Modelled from the spec: the constant `Personality::MINING`, entry 20 of the table. -/
def MINING : Nat := bit 20
/-- Modelled from the spec: the constant `Personality::HARVESTS`, entry 21 of the table. -/
def HARVESTS : Nat := bit 21
/-- Modelled from the spec: the constant `Personality::APPEASING`, entry 22 of the table. -/
def APPEASING : Nat := bit 22
/-- Modelled from the spec: the constant `Personality::MUTE`, entry 23 of the table. -/
def MUTE : Nat := bit 23
/-- Modelled from the spec: the constant `Personality::OPPORTUNISTIC`, entry 24 of the table. -/
def OPPORTUNISTIC : Nat := bit 24
/-- Modelled from the spec: the constant `Personality::TARGET`, entry 25 of the table. -/
def TARGET : Nat := bit 25
/-- Modelled from the spec: the constant `Personality::MARKED`, entry 26 of the table. -/
def MARKED : Nat := bit 26
/-- Modelled from the spec: the constant `Personality::LAUNCHING`, entry 27 of the table. -/
def LAUNCHING : Nat := bit 27

end Personality

/-- The table `PersonalityToString` (lines 52-81), as its key/value pairs. -/
def PersonalityToString : List (Nat × String) := [
  (Personality.PACIFIST, "pacifist"),
  (Personality.FORBEARING, "forebearing"),
  (Personality.TIMID, "timid"),
  (Personality.DISABLES, "disables"),
  (Personality.PLUNDERS, "plunders"),
  (Personality.HEROIC, "heroic"),
  (Personality.STAYING, "staying"),
  (Personality.ENTERING, "entering"),
  (Personality.NEMESIS, "nemesis"),
  (Personality.SURVEILLANCE, "surveillance"),
  (Personality.UNINTERESTED, "uninterested"),
  (Personality.WAITING, "waiting"),
  (Personality.DERELICT, "derelict"),
  (Personality.FLEEING, "fleeing"),
  (Personality.ESCORT, "escort"),
  (Personality.FRUGAL, "frugal"),
  (Personality.COWARD, "coward"),
  (Personality.VINDICTIVE, "vindictive"),
  (Personality.SWARMING, "swarming"),
  (Personality.UNCONSTRAINED, "unconstrained"),
  (Personality.MINING, "mining"),
  (Personality.HARVESTS, "harvests"),
  (Personality.APPEASING, "appeasing"),
  (Personality.MUTE, "mute"),
  (Personality.OPPORTUNISTIC, "opportunistic"),
  (Personality.TARGET, "target"),
  (Personality.MARKED, "marked"),
  (Personality.LAUNCHING, "launching")]

/-- The tokens written for the optional prefix `opt` of a `writeAll` lambda:
nothing for a null `opt`. -/
def optTokens (opt : Option String) : List Token :=
  match opt with
  | none => []
  | some o => [.lit o]

/-- The body of the flag loop for one value of `i`: `PersonalityToString[flags & i]`
is looked up (a key that is not in the table gives a null name), and a non-null
name is written after the prefix. -/
def flagTokens (flags : Nat) (opt : Option String) (i : Nat) : List Token :=
  match PersonalityToString.lookup (flags &&& i) with
  | some personality => optTokens opt ++ [.lit personality]
  | none => []

/-- The loop `for(int i = 1; i <= (1 << 27); i <<= 1)` of the personality
`writeAll` lambda (lines 771-777), from the current value of `i` on. -/
def writeAllFlagsLoop (flags : Nat) (opt : Option String) :
    Nat → Nat → Except Fault (List Token)
  | 0, _ => .error .fuel
  | fuel + 1, i =>
    if i ≤ 1 <<< 27 then
      match writeAllFlagsLoop flags opt fuel (i <<< 1) with
      | .error e => .error e
      | .ok rest => .ok (flagTokens flags opt i ++ rest)
    else .ok []

/-- The personality `writeAll` lambda (lines 769-779): the loop from `i = 1`,
then the line is flushed. -/
def writeAllFlags (flags : Nat) (opt : Option String) : Except Fault (List Out) :=
  match writeAllFlagsLoop flags opt 29 1 with
  | .error e => .error e
  | .ok tokens => .ok [.line tokens]

/-- The name the table gives to bit `k`. -/
def bitName (k : Nat) : String :=
  (PersonalityToString.lookup (Personality.bit k)).getD ""

/-- The encoding of a bitmask in the words of the specification: the bits of
the table from the lowest to the highest, the name of every set bit, each name
after the prefix when one is given. -/
def Encode (flags : Nat) (opt : Option String) : List Token :=
  ((List.range 28).filter (fun k => flags.testBit k)).flatMap
    (fun k => optTokens opt ++ [.lit (bitName k)])

namespace Flags

/-- The mask `toAdd` of line 785. -/
def toAdd (working base : Nat) : Nat := (working ^^^ base) &&& working

/-- The mask `toRemove` of line 786. -/
def toRemove (working base : Nat) : Nat := (working ^^^ base) &&& base

end Flags

/-! ### `FleetEditor::WriteToFile` -/

/-- The test `!diff || test(diff)`: the right operand is evaluated only for a
non-null `diff`. -/
def noDiffOr (diff : Option Fleet) (test : Fleet → Bool) : Bool :=
  match diff with
  | none => true
  | some d => test d

/-- Lines 727-729. -/
def writeGovernment (fleet : Fleet) (diff : Option Fleet) : List Out :=
  if noDiffOr diff (fun d => fleet.government ≠ d.government) then
    match fleet.government with
    | some government => [.line [.lit "government", .str government.TrueName]]
    | none => []
  else []

/-- Lines 730-732. -/
def writeNames (fleet : Fleet) (diff : Option Fleet) : List Out :=
  if noDiffOr diff (fun d => fleet.names ≠ d.names) then
    match fleet.names with
    | some names => [.line [.lit "names", .str names.Name]]
    | none => []
  else []

/-- Lines 733-735. -/
def writeFighterNames (fleet : Fleet) (diff : Option Fleet) : List Out :=
  if noDiffOr diff (fun d => fleet.fighterNames ≠ d.fighterNames) then
    match fleet.fighterNames with
    | some fighterNames => [.line [.lit "fighters", .str fighterNames.Name]]
    | none => []
  else []

/-- Lines 736-738. -/
def writeCargo (fleet : Fleet) (diff : Option Fleet) : List Out :=
  if noDiffOr diff (fun d => fleet.cargo ≠ d.cargo) then
    if fleet.cargo ≠ 3 ∨ diff.isSome then [.line [.lit "cargo", .int fleet.cargo]] else []
  else []

/-- Lines 739-746; the source compares the commodities of `fleet` with
themselves. -/
def writeCommodities (fleet : Fleet) (diff : Option Fleet) : List Out :=
  if noDiffOr diff (fun _ => fleet.commodities ≠ fleet.commodities) then
    if ¬ fleet.commodities.isEmpty then
      [.line (.lit "commodities" :: fleet.commodities.map Token.str)]
    else []
  else []

/-- Lines 747-754. -/
def writeOutfitters (fleet : Fleet) (diff : Option Fleet) : List Out :=
  if noDiffOr diff (fun d => fleet.outfitters ≠ d.outfitters) then
    if ¬ fleet.outfitters.isEmpty then
      [.line (.lit "outfitters" :: fleet.outfitters.map (fun outfitter => Token.str outfitter.name))]
    else []
  else []

/-- The flag lines of the personality block (lines 781-801). -/
def writeFlags (fleet : Fleet) (diff : Option Fleet) : Except Fault (List Out) :=
  match diff with
  | none =>
    if fleet.personality.flags ≠ 0 then writeAllFlags fleet.personality.flags none
    else .ok []
  | some d =>
    let toAdd := Flags.toAdd fleet.personality.flags d.personality.flags
    let toRemove := Flags.toRemove fleet.personality.flags d.personality.flags
    if toRemove = d.personality.flags ∧ ¬ (toRemove ≠ 0) then
      if ¬ (toAdd ≠ 0) then .ok [.line [.lit "remove", .lit "personality"]]
      else writeAllFlags toAdd none
    else
      match (if toAdd ≠ 0 then writeAllFlags toAdd (some "add") else .ok []) with
      | .error e => .error e
      | .ok added =>
        match (if toRemove ≠ 0 then writeAllFlags toRemove (some "remove") else .ok []) with
        | .error e => .error e
        | .ok removed => .ok (added ++ removed)

/-- The personality block (lines 755-803). -/
def writePersonality (fleet : Fleet) (diff : Option Fleet) : Except Fault (List Out) :=
  if noDiffOr diff (fun d =>
      fleet.personality.confusionMultiplier ≠ d.personality.confusionMultiplier
        ∨ fleet.personality.flags ≠ d.personality.flags) then
    if fleet.personality.confusionMultiplier ≠ 0 ∨ fleet.personality.flags ≠ 0 ∨ diff.isSome then
      let clearPersonality : Bool :=
        match diff with
        | none => false
        | some d =>
          ((fleet.personality.flags ^^^ d.personality.flags) &&& fleet.personality.flags) ≠ 0
      let header : Out :=
        if clearPersonality then .line [.lit "remove", .lit "personality"]
        else .line [.lit "personality"]
      let writeConfusion : Bool :=
        match diff with
        | none => fleet.personality.confusionMultiplier ≠ 10
        | some d => fleet.personality.confusionMultiplier ≠ d.personality.confusionMultiplier
      let confusion : List Out :=
        if writeConfusion then
          [.line [.lit "confusion", .real fleet.personality.confusionMultiplier]]
        else []
      match writeFlags fleet diff with
      | .error e => .error e
      | .ok flags => .ok ([header, .beginChild] ++ confusion ++ flags ++ [.endChild])
    else .ok []
  else .ok []

/-- The variant `writeAll` lambda (lines 807-835). -/
def writeAllVariants (opt : Option String) : List Variant → Except Fault (List Out)
  | [] => .ok []
  | variant :: list =>
    match writeShips variant.ships with
    | .error e => .error e
    | .ok ships =>
      match writeAllVariants opt list with
      | .error e => .error e
      | .ok rest =>
        .ok ([.line (optTokens opt ++ [.lit "variant"]
                ++ (if variant.weight > 1 then [.int variant.weight] else [])),
              .beginChild] ++ ships ++ [.endChild] ++ rest)

/-- Modelled from the spec: `Count` is declared outside the provided sources;
`Count(container, obj)` is the number of elements of the container equal to
`obj`, so that `!Count(container, obj)` holds when the item is absent. -/
def Count (container : List Variant) (obj : Variant) : Nat :=
  container.count obj

/-- Modelled from the spec: `Insert` is declared outside the provided sources;
`Insert(container, obj)` adds `obj` to the vector, at its end. -/
def Insert (container : List Variant) (obj : Variant) : List Variant :=
  container ++ [obj]

namespace Variants

/-- The vector `toAdd` after the loop of lines 843-845. -/
def toAdd (working base : List Variant) : List Variant :=
  working.foldl (fun toAdd it => if Count base it = 0 then Insert toAdd it else toAdd) []

/-- The vector `toRemove` after the loop of lines 846-848. -/
def toRemove (working base : List Variant) : List Variant :=
  base.foldl (fun toRemove it => if Count working it = 0 then Insert toRemove it else toRemove) []

end Variants

/-- The variant block (lines 805-868). The flag of the result tells whether
the function returned at line 851, before the closing `EndChild`. -/
def writeVariants (fleet : Fleet) (diff : Option Fleet) : Except Fault (List Out × Bool) :=
  if noDiffOr diff (fun d => fleet.variants ≠ d.variants) then
    match diff with
    | none =>
      match writeAllVariants none fleet.variants with
      | .error e => .error e
      | .ok out => .ok (out, false)
    | some d =>
      let toAdd := Variants.toAdd fleet.variants d.variants
      let toRemove := Variants.toRemove fleet.variants d.variants
      if toAdd.isEmpty ∧ toRemove.isEmpty then .ok ([], true)
      else if toRemove.length = d.variants.length ∧ ¬ d.variants.isEmpty then
        match (if fleet.variants.isEmpty then writeAllVariants (some "remove") d.variants
               else writeAllVariants none toAdd) with
        | .error e => .error e
        | .ok out => .ok (out, false)
      else
        match (if ¬ toAdd.isEmpty then writeAllVariants (some "add") toAdd else .ok []) with
        | .error e => .error e
        | .ok added =>
          match (if ¬ toRemove.isEmpty then writeAllVariants (some "remove") toRemove
                 else .ok []) with
          | .error e => .error e
          | .ok removed => .ok (added ++ removed, false)
  else .ok ([], false)

/-- The function `FleetEditor::WriteToFile` (lines 719-870); `diff` is the base fleet of the
same name, when there is one. -/
def WriteToFile (fleet : Fleet) (diff : Option Fleet) : Except Fault (List Out) :=
  match writePersonality fleet diff with
  | .error e => .error e
  | .ok personality =>
    match writeVariants fleet diff with
    | .error e => .error e
    | .ok (variants, returned) =>
      .ok ([.line [.lit "fleet", .str fleet.fleetName], .beginChild]
        ++ writeGovernment fleet diff
        ++ writeNames fleet diff
        ++ writeFighterNames fleet diff
        ++ writeCargo fleet diff
        ++ writeCommodities fleet diff
        ++ writeOutfitters fleet diff
        ++ personality
        ++ variants
        ++ (if returned then [] else [.endChild]))

/-- No line of the output holds an `add` or `remove` framing token. -/
def NoFraming (out : List Out) : Prop :=
  ∀ tokens, Out.line tokens ∈ out → Token.lit "add" ∉ tokens ∧ Token.lit "remove" ∉ tokens

/-- The line opens a `remove variant` block. -/
def isRemoveVariant : Out → Bool
  | .line (first :: second :: _) => first = .lit "remove" ∧ second = .lit "variant"
  | _ => false

/-- The line is a cargo line: the keyword `cargo` followed by one number. -/
def isCargoLine : Out → Bool
  | .line [first, .int _] => first = .lit "cargo"
  | _ => false

/-- No line of the output is a cargo line. -/
def NoCargo (out : List Out) : Prop :=
  ∀ n, Out.line [.lit "cargo", .int n] ∉ out

/-- The number of `BeginChild` calls of an output. -/
def beginCount (out : List Out) : Nat := out.count .beginChild

/-- The number of `EndChild` calls of an output. -/
def endCount (out : List Out) : Nat := out.count .endChild

/-- The mask `mask` with the bits of `bits` cleared. -/
def clearBits (mask bits : Nat) : Nat := mask ^^^ (mask &&& bits)

/-! ### Sample records -/

/-- A fleet with every field at the value the writer treats as unset, apart
from the given personality and variants. -/
def plainFleet (flags : Nat) (confusionMultiplier : Rat) (variants : List Variant) : Fleet :=
  { fleetName := "patrol", government := none, names := none, fighterNames := none,
    cargo := 3, commodities := [], outfitters := [],
    personality := ⟨flags, confusionMultiplier⟩, variants := variants }

/-- A variant holding a single ship of the given name. -/
def single (ship : String) : Variant := ⟨1, [some ⟨ship⟩]⟩

/-- A fleet with every field set, one ship reference of which is null. -/
def richFleet : Fleet :=
  { fleetName := "convoy", government := some ⟨"Merchant"⟩, names := some ⟨"civilian"⟩,
    fighterNames := some ⟨"fighter"⟩, cargo := 5, commodities := ["Food", "Metal"],
    outfitters := [⟨"Common Outfits"⟩],
    personality := ⟨Personality.TIMID ||| Personality.ESCORT, 20⟩,
    variants := [⟨2, [some ⟨"Hauler"⟩, some ⟨"Hauler"⟩, none]⟩] }

end FleetEditor

namespace SystemEditor

open FleetEditor

/-! ### The object array of a system -/

/-- An interned planet, identified by its true name. -/
structure Planet where
  TrueName : String
  deriving DecidableEq

/-- An interned sprite, identified by its name. -/
structure Sprite where
  Name : String
  deriving DecidableEq

/-- One node of the object array (`StellarObject`): the payload the writer
reads and the index of the parent, `-1` for none. -/
structure StellarObject where
  planet : Option Planet
  sprite : Option Sprite
  distance : Rat
  speed : Rat
  offset : Rat
  parent : Int
  deriving DecidableEq

/-- Modelled from the spec: the constructor of `StellarObject` is declared
outside the provided sources; a newly created node has no payload and no
parent. -/
def StellarObject.fresh : StellarObject :=
  { planet := none, sprite := none, distance := 0, speed := 0, offset := 0, parent := -1 }

/-- The loop of lines 659-663: `next` is the head of the list, the range from
the erased position to `end`; the result is what is left of that range and the
final value of `removed`. -/
def eraseChildren (index : Int) : List StellarObject → Nat → List StellarObject × Nat
  | [], removed => ([], removed)
  | next :: rest, removed =>
    if next.parent = index then eraseChildren index rest (removed + 1)
    else (next :: rest, removed)

/-- The loop of lines 666-668 on one node: a parent other than `-1` is lowered
by `removed`. -/
def lowerParent (removed : Nat) (it : StellarObject) : StellarObject :=
  if it.parent ≠ -1 then { it with parent := it.parent - removed } else it

/-- The removal step of lines 650-669, `selected` being the iterator at
position `index`; nothing is done when `selected` is `end`. -/
def removeObject (objects : List StellarObject) (index : Nat) : List StellarObject :=
  if index < objects.length then
    let erased := eraseChildren index (objects.drop (index + 1)) 1
    objects.take index ++ erased.1.map (lowerParent erased.2)
  else objects

/-- The loop of lines 677-679 on one node that follows the new one. -/
def raiseParent (newParent : Int) (it : StellarObject) : StellarObject :=
  if it.parent ≥ newParent then { it with parent := it.parent + 1 } else it

/-- The value of `selectedToAdd - object->objects.begin()` at line 674, which
is read after the `emplace` of line 673. When the vector has spare capacity
the iterator `selectedToAdd` is still valid and the value is its position.
When the size has reached the capacity, `emplace` moves the elements to a new
buffer, `selectedToAdd` still points into the old one, and the difference is
whatever the two addresses give: the value `stale`. -/
def storedParent (objects : List StellarObject) (capacity : Nat) (stale : Int)
    (selectedToAdd : Nat) : Int :=
  if objects.length < capacity then (selectedToAdd : Int) else stale

/-- The `Add Child` step of lines 670-680, `selectedToAdd` being the iterator
at the given position, `capacity` the capacity of the vector before the step
and `stale` the value a difference with the invalidated iterator yields;
nothing is done when `selectedToAdd` is `end`. -/
def addChild (objects : List StellarObject) (capacity : Nat) (stale : Int)
    (selectedToAdd : Nat) : List StellarObject :=
  if selectedToAdd < objects.length then
    let newParent : Int := storedParent objects capacity stale selectedToAdd
    objects.take (selectedToAdd + 1)
      ++ [{ StellarObject.fresh with parent := newParent }]
      ++ (objects.drop (selectedToAdd + 1)).map (raiseParent newParent)
  else objects

/-- The parent index stored at position `j`, `-1` outside the array. -/
def parentAt (objects : List StellarObject) (j : Nat) : Int :=
  match objects[j]? with
  | some object => object.parent
  | none => -1

/-- The tree invariant: every parent index is `-1` or the index of a node at a
strictly earlier position. -/
def WellParented (objects : List StellarObject) : Prop :=
  ∀ j, j < objects.length →
    parentAt objects j = -1 ∨ (0 ≤ parentAt objects j ∧ parentAt objects j < j)

/-- Node `j` descends from node `q`: the chain of parent indices that starts
at `j` leads to `q`. -/
inductive Descends (objects : List StellarObject) (q : Nat) : Nat → Prop where
  | child {j : Nat} : j < objects.length → parentAt objects j = q → Descends objects q j
  | step {j m : Nat} : j < objects.length → parentAt objects j = m →
      Descends objects q m → Descends objects q j

/-- A valid pre-order flattening: the tree invariant holds and the subtree of
every node is contiguous directly after it, that is, every node between a node
and one of its descendants is one of its descendants too. -/
def PreOrder (objects : List StellarObject) : Prop :=
  WellParented objects ∧
    ∀ q j, Descends objects q j → ∀ k, q < k → k < j → Descends objects q k

/-- The contiguity of subtrees as a test on parent indices: no node between a
node and its parent has a parent before that parent. -/
def Nested (objects : List StellarObject) : Prop :=
  ∀ j, j < objects.length → ∀ k, k < j →
    parentAt objects j < k → parentAt objects j ≤ parentAt objects k

instance (objects : List StellarObject) : Decidable (WellParented objects) := by
  unfold WellParented
  infer_instance

instance (objects : List StellarObject) : Decidable (Nested objects) := by
  unfold Nested
  infer_instance

/-! ### `SystemEditor::WriteObject` -/

/-- The loop of lines 781-785: parent indices are followed from `i` until `-1`
is reached, `nested` counting the hops. Reading `system->objects[i]` outside
the array is a fault. -/
def parentWalk (objects : List StellarObject) : Nat → Int → Nat → Except Fault Nat
  | 0, _, _ => .error .fuel
  | fuel + 1, i, nested =>
    if i ≠ -1 then
      if 0 ≤ i then
        match objects[i.toNat]? with
        | some object => parentWalk objects fuel object.parent (nested + 1)
        | none => .error .outOfBounds
      else .error .outOfBounds
    else .ok nested

/-- The lines of the child block of an object (lines 799-806). -/
def objectFields (object : StellarObject) : List Out :=
  (match object.sprite with
    | some sprite => [.line [.lit "sprite", .str sprite.Name]]
    | none => [])
  ++ (if object.distance ≠ 0 then [.line [.lit "distance", .real object.distance]] else [])
  ++ (if object.speed ≠ 0 then [.line [.lit "period", .real (360 / object.speed)]] else [])
  ++ (if object.offset ≠ 0 then [.line [.lit "offset", .real object.offset]] else [])

/-- The object line (lines 790-796): the `add` token for an added object
without parent, `object`, and the name of the planet when there is one. -/
def objectLine (object : StellarObject) (add : Bool) (nested : Nat) : Out :=
  .line ((if add ∧ nested = 0 then [.lit "add"] else []) ++ [.lit "object"]
    ++ (match object.planet with
        | some planet => [.str planet.TrueName]
        | none => []))

/-- The function `SystemEditor::WriteObject` (lines 775-811) on the object array of
the system. The walk is given one step more than the array has nodes: a walk
that needs more has entered a cycle and does not end. -/
def WriteObject (objects : List StellarObject) (object : StellarObject) (add : Bool) :
    Except Fault (List Out) :=
  match parentWalk objects (objects.length + 1) object.parent 0 with
  | .error e => .error e
  | .ok nested =>
    .ok (List.replicate nested .beginChild
      ++ [objectLine object add nested, .beginChild]
      ++ objectFields object
      ++ [.endChild]
      ++ List.replicate nested .endChild)

/-- The parent chain that starts at index `i` has `n` nodes: a node whose
parent index is `i` has `n` ancestors. -/
inductive AncestorCount (objects : List StellarObject) : Int → Nat → Prop where
  | root : AncestorCount objects (-1) 0
  | step {i : Nat} {object : StellarObject} {n : Nat} : objects[i]? = some object →
      AncestorCount objects object.parent n → AncestorCount objects i (n + 1)

/-! ### `SystemEditor::WriteToFile` -/

/-- A position (`Point`). -/
structure Point where
  X : Rat
  Y : Rat
  deriving DecidableEq

/-- An interned system, as the target of a link. -/
structure SystemRef where
  name : String
  deriving DecidableEq

/-- An interned minable. -/
structure Minable where
  name : String
  deriving DecidableEq

/-- An asteroid entry of a system (`System::Asteroid`); a minable has a type. -/
structure Asteroid where
  name : String
  count : Int
  energy : Rat
  type : Option Minable
  deriving DecidableEq

/-- A fleet or hazard that appears in a system with a period (`RandomEvent`). -/
structure RandomEvent where
  name : String
  period : Int
  deriving DecidableEq

/-- A system record with the fields `WriteToFile` reads. Sets and maps are held
as the list of their elements in iteration order, the trade map as pairs of a
commodity and its base price. -/
structure System where
  name : String
  hasPosition : Bool
  position : Point
  government : Option Government
  music : String
  links : List SystemRef
  hidden : Bool
  asteroids : List Asteroid
  haze : Option Sprite
  fleets : List RandomEvent
  hazards : List RandomEvent
  habitable : Rat
  asteroidBelt : Rat
  jumpRange : Rat
  extraHyperArrivalDistance : Rat
  extraJumpArrivalDistance : Rat
  trade : List (String × Int)
  attributes : List String
  objects : List StellarObject
  deriving DecidableEq

/-- The helper `WriteDiff` is declared outside the provided sources; the writer
takes it as a parameter: from the keyword, the working collection, the base
collection when there is a base, and the flag of its last argument, it gives
the calls it makes on the `DataWriter`. -/
abbrev WriteDiffFn : Type 1 :=
  (α : Type) → String → List α → Option (List α) → Bool → List Out

/-- The test `!diff || test(diff)`: the right operand is evaluated only for a
non-null `diff`. -/
def noDiffOr (diff : Option System) (test : System → Bool) : Bool :=
  match diff with
  | none => true
  | some d => test d

/-- The test `(!diff && whenNew) || (diff && test(diff))`. -/
def newOrChanged (diff : Option System) (whenNew : Bool) (test : System → Bool) : Bool :=
  match diff with
  | none => whenNew
  | some d => test d

/-- Lines 824-825. -/
def writePos (system : System) (diff : Option System) : List Out :=
  if newOrChanged diff system.hasPosition
      (fun d => system.hasPosition ≠ d.hasPosition ∨ system.position ≠ d.position) then
    [.line [.lit "pos", .real system.position.X, .real system.position.Y]]
  else []

/-- Lines 826-832. -/
def writeGovernment (system : System) (diff : Option System) : List Out :=
  if noDiffOr diff (fun d => system.government ≠ d.government) then
    match system.government with
    | some government => [.line [.lit "government", .str government.TrueName]]
    | none => if diff.isSome then [.line [.lit "remove", .lit "government"]] else []
  else []

/-- Lines 833-839. -/
def writeMusic (system : System) (diff : Option System) : List Out :=
  if noDiffOr diff (fun d => system.music ≠ d.music) then
    if ¬ system.music.isEmpty then [.line [.lit "music", .str system.music]]
    else if diff.isSome then [.line [.lit "remove", .lit "music"]] else []
  else []

/-- Lines 841-847. -/
def writeHidden (system : System) (diff : Option System) : List Out :=
  if noDiffOr diff (fun d => system.hidden ≠ d.hidden) then
    if system.hidden then [.line [.lit "hidden"]]
    else if diff.isSome then [.line [.lit "remove hidden"]] else []
  else []

/-- The asteroids of a list that are not minables (lines 849-850, 853-854). -/
def plainAsteroids (asteroids : List Asteroid) : List Asteroid :=
  asteroids.filter (fun a => a.type.isNone)

/-- The minables of a list of asteroids (lines 851-852, 855-856). -/
def minableAsteroids (asteroids : List Asteroid) : List Asteroid :=
  asteroids.filter (fun a => a.type.isSome)

/-- Lines 860-866. -/
def writeHaze (system : System) (diff : Option System) : List Out :=
  if noDiffOr diff (fun d => system.haze ≠ d.haze) then
    match system.haze with
    | some haze => [.line [.lit "haze", .str haze.Name]]
    | none => if diff.isSome then [.line [.lit "remove", .lit "haze"]] else []
  else []

/-- Lines 869-870. -/
def writeHabitable (system : System) (diff : Option System) : List Out :=
  if newOrChanged diff (system.habitable ≠ 1000) (fun d => system.habitable ≠ d.habitable) then
    [.line [.lit "habitable", .real system.habitable]]
  else []

/-- Lines 871-872. -/
def writeBelt (system : System) (diff : Option System) : List Out :=
  if newOrChanged diff (system.asteroidBelt ≠ 1500)
      (fun d => system.asteroidBelt ≠ d.asteroidBelt) then
    [.line [.lit "belt", .real system.asteroidBelt]]
  else []

/-- Lines 873-874. -/
def writeJumpRange (system : System) (diff : Option System) : List Out :=
  if newOrChanged diff (system.jumpRange ≠ 0) (fun d => system.jumpRange ≠ d.jumpRange) then
    [.line [.lit "jump range", .real system.jumpRange]]
  else []

/-- The test `(!diff && value) || value != diff->field` of lines 885 and 887:
for a null `diff` and a zero `value` the right operand reads a field of the
null `diff`. -/
def arrivalTest (diff : Option System) (value : Rat) (field : System → Rat) :
    Except Fault Bool :=
  match diff with
  | none => if value ≠ 0 then .ok true else .error .nullDeref
  | some d => .ok (value ≠ field d)

/-- Lines 875-891. -/
def writeArrival (system : System) (diff : Option System) : Except Fault (List Out) :=
  if noDiffOr diff (fun d =>
      system.extraHyperArrivalDistance ≠ d.extraHyperArrivalDistance
        ∨ system.extraJumpArrivalDistance ≠ d.extraJumpArrivalDistance) then
    if system.extraHyperArrivalDistance = system.extraJumpArrivalDistance
        ∧ (diff.isSome ∨ system.extraHyperArrivalDistance ≠ 0) then
      .ok [.line [.lit "arrival", .real system.extraHyperArrivalDistance]]
    else if system.extraHyperArrivalDistance ≠ system.extraJumpArrivalDistance then
      match arrivalTest diff system.extraHyperArrivalDistance
          (fun d => d.extraHyperArrivalDistance) with
      | .error e => .error e
      | .ok writeLink =>
        match arrivalTest diff system.extraJumpArrivalDistance
            (fun d => d.extraJumpArrivalDistance) with
        | .error e => .error e
        | .ok writeJump =>
          .ok ([.line [.lit "arrival"], .beginChild]
            ++ (if writeLink then
                  [.line [.lit "link", .real system.extraHyperArrivalDistance]] else [])
            ++ (if writeJump then
                  [.line [.lit "jump", .real system.extraJumpArrivalDistance]] else [])
            ++ [.endChild])
    else .ok []
  else .ok []

/-- Lines 892-899. -/
def writeTrade (system : System) (diff : Option System) : List Out :=
  if noDiffOr diff (fun d => system.trade ≠ d.trade) then
    if ¬ system.trade.isEmpty then
      system.trade.map (fun trade => .line [.lit "trade", .str trade.1, .int trade.2])
    else if diff.isSome then [.line [.lit "remove", .lit "trade"]] else []
  else []

/-- One call of `WriteObject` for every object of the list, in order (the loops
of lines 924-928). -/
def writeAllObjects (objects : List StellarObject) (add : Bool) :
    List StellarObject → Except Fault (List Out)
  | [] => .ok []
  | object :: rest =>
    match WriteObject objects object add with
    | .error e => .error e
    | .ok out =>
      match writeAllObjects objects add rest with
      | .error e => .error e
      | .ok more => .ok (out ++ more)

/-- The vector `toAdd` of lines 909-921: the objects of the system past the
length of the base, unless one of the earlier objects differs from the base. -/
def toAdd (system : System) (diff : Option System) : List StellarObject :=
  match diff with
  | none => []
  | some d =>
    if system.objects.length > d.objects.length then
      if (List.zip system.objects d.objects).any (fun pair => pair.1 ≠ pair.2) then []
      else system.objects.drop d.objects.length
    else []

/-- The object block (lines 907-931); `WriteObject` is called without `add` at
line 928, the default of the parameter being false. -/
def writeObjects (system : System) (diff : Option System) : Except Fault (List Out) :=
  if noDiffOr diff (fun d => system.objects ≠ d.objects) then
    if ¬ (toAdd system diff).isEmpty then
      writeAllObjects system.objects true (toAdd system diff)
    else if ¬ system.objects.isEmpty then
      writeAllObjects system.objects false system.objects
    else if diff.isSome then .ok [.line [.lit "remove object"]]
    else .ok []
  else .ok []

/-- The function `SystemEditor::WriteToFile` (lines 815-934); `diff` is the base
system of the same name, when there is one. -/
def WriteToFile (WriteDiff : WriteDiffFn) (system : System) (diff : Option System) :
    Except Fault (List Out) :=
  match writeArrival system diff with
  | .error e => .error e
  | .ok arrival =>
    match writeObjects system diff with
    | .error e => .error e
    | .ok objects =>
      .ok ([.line [.lit "system", .str system.name], .beginChild]
        ++ writePos system diff
        ++ writeGovernment system diff
        ++ writeMusic system diff
        ++ WriteDiff SystemRef "link" system.links (diff.map (fun d => d.links)) false
        ++ writeHidden system diff
        ++ WriteDiff Asteroid "asteroids" (plainAsteroids system.asteroids)
            (diff.map (fun d => plainAsteroids d.asteroids)) false
        ++ WriteDiff Asteroid "minables" (minableAsteroids system.asteroids)
            (diff.map (fun d => minableAsteroids d.asteroids)) false
        ++ writeHaze system diff
        ++ WriteDiff RandomEvent "fleet" system.fleets (diff.map (fun d => d.fleets)) false
        ++ WriteDiff RandomEvent "hazard" system.hazards (diff.map (fun d => d.hazards)) false
        ++ writeHabitable system diff
        ++ writeBelt system diff
        ++ writeJumpRange system diff
        ++ arrival
        ++ writeTrade system diff
        ++ WriteDiff String "attributes"
            (system.attributes.filter (fun a => a ≠ "uninhabited"))
            (diff.map (fun d => d.attributes.filter (fun a => a ≠ "uninhabited"))) true
        ++ objects
        ++ [.endChild])

/-- A system with every field at the value the writer treats as unset, apart
from the two arrival distances and the objects. -/
def plainSystem (hyper jump : Rat) (objects : List StellarObject) : System :=
  { name := "Sol", hasPosition := false, position := ⟨0, 0⟩, government := none,
    music := "", links := [], hidden := false, asteroids := [], haze := none,
    fleets := [], hazards := [], habitable := 1000, asteroidBelt := 1500, jumpRange := 0,
    extraHyperArrivalDistance := hyper, extraJumpArrivalDistance := jump,
    trade := [], attributes := [], objects := objects }

/-- A node without payload whose parent is the given index. -/
def node (parent : Int) : StellarObject := { StellarObject.fresh with parent := parent }

/-- A node holding the named planet whose parent is the given index. -/
def named (name : String) (parent : Int) : StellarObject :=
  { StellarObject.fresh with planet := some ⟨name⟩, parent := parent }

end SystemEditor

namespace FleetEditor

/-! ## The run-length ship writer -/

theorem countRun_eq (x : Ship) (rest : List Ship) (c : Nat) :
    countRun (some x) (rest.map some) c = c + runLen x rest := by
  unfold runLen
  induction rest generalizing c with
  | nil => simp [countRun]
  | cons y ys ih =>
    by_cases h : y = x
    · subst h
      simp [countRun, List.takeWhile_cons, ih]
      omega
    · simp [countRun, List.takeWhile_cons, h]

theorem run_split (x : Ship) (rest : List Ship) :
    rest = List.replicate (runLen x rest) x ++ rest.drop (runLen x rest) := by
  unfold runLen
  induction rest with
  | nil => simp
  | cons y ys ih =>
    by_cases h : y = x
    · subst h
      simp [List.takeWhile_cons, List.replicate_succ]
      exact ih
    · simp [List.takeWhile_cons, h]

theorem run_head (x : Ship) (rest : List Ship) :
    (rest.drop (runLen x rest)).head? ≠ some x := by
  unfold runLen
  induction rest with
  | nil => simp
  | cons y ys ih =>
    by_cases h : y = x
    · subst h
      simpa [List.takeWhile_cons] using ih
    · simp [List.takeWhile_cons, h]

theorem decodeEntry_shipLine (x : Ship) (k : Nat) :
    ∃ l, shipLine (some x) (1 + k) = .ok l ∧ decodeEntry l = List.replicate (1 + k) x ∧
      CanonicalEntry l ∧ entryShip l = some x := by
  cases k with
  | zero => exact ⟨_, rfl, by simp [decodeEntry], by simp [CanonicalEntry], rfl⟩
  | succ k =>
    refine ⟨.line [.str x.VariantName, .int ((1 + (k + 1) : Nat) : Int)], ?_, ?_, ?_, rfl⟩
    · simp [shipLine]
    · simp only [decodeEntry]
      congr 1
    · simp only [CanonicalEntry]; omega

/-- What the ship loop produces on a list without null entries: with enough
fuel it completes, the lines expand to the list, every line is canonical, no
two neighbouring lines name the same ship, and the first line names the first
ship. -/
theorem writeShipsLoop_spec (fuel : Nat) : ∀ ships : List Ship, ships.length ≤ fuel →
    ∃ out, writeShipsLoop fuel (ships.map some) = .ok out ∧ Decode out = ships ∧
      (∀ l ∈ out, CanonicalEntry l) ∧
      List.Chain' (fun a b => entryShip a ≠ entryShip b) out ∧
      out.head?.bind entryShip = ships.head? := by
  induction fuel with
  | zero =>
    intro ships h
    have : ships = [] := List.length_eq_zero.mp (Nat.le_zero.mp h)
    subst this
    exact ⟨[], rfl, rfl, by simp, by simp, rfl⟩
  | succ fuel ih =>
    intro ships h
    cases ships with
    | nil => exact ⟨[], rfl, rfl, by simp, by simp, rfl⟩
    | cons x rest =>
      have hlen : (rest.drop (runLen x rest)).length ≤ fuel := by
        simp only [List.length_drop, List.length_cons] at h ⊢; omega
      obtain ⟨out, hout, hdec, hcan, hchain, hhead⟩ := ih _ hlen
      obtain ⟨l, hl, hld, hlc, hls⟩ := decodeEntry_shipLine x (runLen x rest)
      refine ⟨l :: out, ?_, ?_, ?_, ?_, ?_⟩
      · have hdrop : (some x :: List.map some rest).drop (1 + runLen x rest) =
            (rest.drop (runLen x rest)).map some := by
          rw [Nat.add_comm, List.drop_succ_cons, List.map_drop]
        simp only [List.map_cons, writeShipsLoop, countRun_eq, hl, hdrop, hout]
      · simp only [Decode, hld, hdec]
        rw [Nat.add_comm, List.replicate_succ, List.cons_append, ← run_split]
      · intro e he
        rcases List.mem_cons.mp he with rfl | he
        · exact hlc
        · exact hcan e he
      · refine List.chain'_cons'.mpr ⟨?_, hchain⟩
        intro y hy
        rw [hls]
        intro hxy
        have h1 := run_head x rest
        rw [← hhead, hy] at h1
        exact h1 (by simpa using hxy.symm)
      · simp [hls]

theorem countRun_eq_takeWhile (cur : Option Ship) (rest : List (Option Ship)) (c : Nat) :
    countRun cur rest c = c + (rest.takeWhile (fun s => decide (s = cur))).length := by
  induction rest generalizing c with
  | nil => simp [countRun]
  | cons y ys ih =>
    by_cases h : y = cur
    · subst h
      simp [countRun, List.takeWhile_cons, ih]
      omega
    · simp [countRun, List.takeWhile_cons, h]

theorem mem_drop_run (cur a : Option Ship) (rest : List (Option Ship)) (ha : a ∈ rest)
    (hne : a ≠ cur) :
    a ∈ rest.drop (rest.takeWhile (fun s => decide (s = cur))).length := by
  induction rest with
  | nil => cases ha
  | cons y ys ih =>
    by_cases h : y = cur
    · subst h
      rcases List.mem_cons.mp ha with rfl | hmem
      · exact absurd rfl hne
      · simpa [List.takeWhile_cons] using ih hmem
    · simpa [List.takeWhile_cons, h] using ha

/-- A null entry makes the ship loop fault: the run that holds it starts with
a null pointer, which the loop dereferences. -/
theorem writeShipsLoop_null (fuel : Nat) : ∀ ships : List (Option Ship),
    ships.length ≤ fuel → none ∈ ships → writeShipsLoop fuel ships = .error .nullDeref := by
  induction fuel with
  | zero =>
    intro ships h hmem
    have : ships = [] := List.length_eq_zero.mp (Nat.le_zero.mp h)
    subst this
    cases hmem
  | succ fuel ih =>
    intro ships h hmem
    cases ships with
    | nil => cases hmem
    | cons it rest =>
      cases it with
      | none => simp [writeShipsLoop, shipLine]
      | some x =>
        have hrest : none ∈ rest := by
          rcases List.mem_cons.mp hmem with h0 | h0
          · cases h0
          · exact h0
        have hdrop := mem_drop_run (some x) none rest hrest (by simp)
        have hlen : (rest.drop (rest.takeWhile
            (fun s => decide (s = some x))).length).length ≤ fuel := by
          simp only [List.length_drop, List.length_cons] at h ⊢; omega
        have hrec := ih _ hlen hdrop
        have hd : (some x :: rest).drop
            (1 + (rest.takeWhile (fun s => decide (s = some x))).length) =
            rest.drop (rest.takeWhile (fun s => decide (s = some x))).length := by
          rw [Nat.add_comm, List.drop_succ_cons]
        simp only [writeShipsLoop, countRun_eq_takeWhile, shipLine, hd, hrec]

theorem exists_map_some (ships : List (Option Ship)) (h : none ∉ ships) :
    ∃ s : List Ship, ships = s.map some := by
  induction ships with
  | nil => exact ⟨[], rfl⟩
  | cons x xs ih =>
    obtain ⟨s, hs⟩ := ih (fun hx => h (List.mem_cons_of_mem _ hx))
    cases x with
    | none => exact absurd (List.mem_cons_self _ _) h
    | some ship => exact ⟨ship :: s, by simp [hs]⟩

/-- C1 (run-length round trip): on every ship sequence without null entries the
variant writer completes, and expanding the lines it writes (each value
repeated count times, in order, an omitted count meaning one) gives back the
sequence. -/
theorem run_length_round_trip (s : List Ship) :
    ∃ out, writeShips (s.map some) = .ok out ∧ Decode out = s := by
  obtain ⟨out, h1, h2, _⟩ := writeShipsLoop_spec s.length s (Nat.le_refl _)
  exact ⟨out, by simpa [writeShips] using h1, h2⟩

/-- C2 (canonical encoding): on every ship sequence the variant writer either
faults on a null entry, or completes with lines that are the maximal runs of
the sequence: every line is a name alone or a name with a count of at least
two (so never a count of zero, and the count is written only for a run longer
than one), the lines expand to the sequence, and no two neighbouring lines
name the same ship. -/
theorem run_length_canonical (ships : List (Option Ship)) :
    (none ∈ ships ∧ writeShips ships = .error .nullDeref) ∨
    (∃ out, writeShips ships = .ok out ∧ (Decode out).map some = ships ∧
      (∀ l ∈ out, CanonicalEntry l) ∧
      List.Chain' (fun a b => entryShip a ≠ entryShip b) out) := by
  by_cases hnull : none ∈ ships
  · exact Or.inl ⟨hnull, writeShipsLoop_null ships.length ships (Nat.le_refl _) hnull⟩
  · obtain ⟨s, rfl⟩ := exists_map_some ships hnull
    obtain ⟨out, h1, h2, h3, h4, _⟩ := writeShipsLoop_spec s.length s (Nat.le_refl _)
    exact Or.inr ⟨out, by simpa [writeShips] using h1, by rw [h2], h3, h4⟩

/-! ## The personality flag delta -/

/-- C3 (flag delta): `toAdd` is `(working XOR base) AND working`, whose set
bits are exactly the bits set in `working` and clear in `base`, and `toRemove`
is `(working XOR base) AND base`, whose set bits are exactly the bits set in
`base` and clear in `working`. -/
theorem flag_delta_bits (working base : Nat) :
    Flags.toAdd working base = (working ^^^ base) &&& working ∧
    Flags.toRemove working base = (working ^^^ base) &&& base ∧
    (∀ i, (Flags.toAdd working base).testBit i = (working.testBit i && !base.testBit i)) ∧
    (∀ i, (Flags.toRemove working base).testBit i = (base.testBit i && !working.testBit i)) := by
  refine ⟨rfl, rfl, ?_, ?_⟩
  · intro i
    simp only [Flags.toAdd, Nat.testBit_and, Nat.testBit_xor]
    cases working.testBit i <;> cases base.testBit i <;> rfl
  · intro i
    simp only [Flags.toRemove, Nat.testBit_and, Nat.testBit_xor]
    cases working.testBit i <;> cases base.testBit i <;> rfl

/-- C4 (flag delta symmetry): the `toAdd` mask of `(a, b)` is the `toRemove`
mask of `(b, a)`, and the `toRemove` mask of `(a, b)` is the `toAdd` mask of
`(b, a)`. -/
theorem flag_delta_symmetry (a b : Nat) :
    Flags.toAdd a b = Flags.toRemove b a ∧ Flags.toRemove a b = Flags.toAdd b a := by
  simp only [Flags.toAdd, Flags.toRemove, Nat.xor_comm a b, and_self]

/-! ## The personality flag writer -/

theorem lookup_bit (k : Nat) (hk : k < 28) :
    PersonalityToString.lookup (2 ^ k) = some (bitName k) := by
  interval_cases k <;> rfl

theorem flagTokens_bit (flags : Nat) (opt : Option String) (k : Nat) (hk : k < 28) :
    flagTokens flags opt (1 <<< k) =
      if flags.testBit k then optTokens opt ++ [.lit (bitName k)] else [] := by
  unfold flagTokens
  rw [Nat.one_shiftLeft, Nat.and_two_pow]
  cases h : flags.testBit k
  · have h0 : PersonalityToString.lookup 0 = none := rfl
    simp [h0]
  · simp [lookup_bit k hk]

theorem writeAllFlagsLoop_spec (flags : Nat) (opt : Option String) (n : Nat) :
    ∀ k fuel, k + n = 28 → n + 1 ≤ fuel →
      writeAllFlagsLoop flags opt fuel (1 <<< k) =
        .ok ((List.range' k n).flatMap
          (fun j => if flags.testBit j then optTokens opt ++ [.lit (bitName j)] else [])) := by
  induction n with
  | zero =>
    intro k fuel hk hf
    obtain ⟨f, rfl⟩ : ∃ f, fuel = f + 1 := ⟨fuel - 1, by omega⟩
    have : k = 28 := by omega
    subst this
    simp [writeAllFlagsLoop]
  | succ n ih =>
    intro k fuel hk hf
    obtain ⟨f, rfl⟩ : ∃ f, fuel = f + 1 := ⟨fuel - 1, by omega⟩
    have hle : 1 <<< k ≤ 1 <<< 27 := by
      rw [Nat.one_shiftLeft, Nat.one_shiftLeft]
      exact Nat.pow_le_pow_right (by decide) (by omega)
    have hshift : (1 <<< k) <<< 1 = 1 <<< (k + 1) := by
      simp only [Nat.shiftLeft_eq, Nat.pow_succ, Nat.one_mul, Nat.pow_one]
    have hrec := ih (k + 1) f (by omega) (by omega)
    rw [writeAllFlagsLoop, if_pos hle, hshift, hrec, flagTokens_bit flags opt k (by omega)]
    simp [List.range'_succ]

theorem filter_flatMap_ite {α β : Type} (p : α → Bool) (f : α → List β) (l : List α) :
    (l.filter p).flatMap f = l.flatMap (fun a => if p a then f a else []) := by
  induction l with
  | nil => rfl
  | cons a l ih =>
    cases h : p a <;> simp [List.filter_cons, h, ih]

theorem flatMap_singleton_eq_map {α β : Type} (f : α → β) (l : List α) :
    l.flatMap (fun a => [f a]) = l.map f := by
  induction l with
  | nil => rfl
  | cons a l ih => simp [List.flatMap_cons, ih]

theorem writeAllFlags_eq (flags : Nat) (opt : Option String) :
    writeAllFlags flags opt = .ok [.line (Encode flags opt)] := by
  have h := writeAllFlagsLoop_spec flags opt 28 0 29 (by decide) (by decide)
  rw [Nat.shiftLeft_zero] at h
  simp only [writeAllFlags, h, Encode, filter_flatMap_ite, List.range_eq_range']

/-- C7 (flag encoding order): the flag writer completes and writes one line
holding, for the bits of the table in ascending order, the name of every set
bit and of no clear bit, each name directly after the prefix token when one is
given; different bits of the table have different names, so every name is
written once. -/
theorem flag_encoding_order (flags : Nat) (opt : Option String) :
    writeAllFlags flags opt =
      .ok [.line (((List.range 28).filter (fun k => flags.testBit k)).flatMap
        (fun k => optTokens opt ++ [.lit (bitName k)]))] ∧
    (∀ j, j < 28 → ∀ k, k < 28 → bitName j = bitName k → j = k) := by
  refine ⟨writeAllFlags_eq flags opt, ?_⟩
  decide

/-! ## The personality block -/

/-- C5 (partial flag change), the code at the scenario of the claim: with base
flags {PACIFIST, TIMID}, working flags {TIMID, HEROIC} and the same confusion
multiplier, the lines inside the block are `add heroic` then `remove pacifist`,
and the line that opens the block is the directive `remove personality`. -/
theorem partial_flag_change_scenario :
    writePersonality
        (plainFleet (Personality.TIMID ||| Personality.HEROIC) 10 [])
        (some (plainFleet (Personality.PACIFIST ||| Personality.TIMID) 10 [])) =
      .ok [.line [.lit "remove", .lit "personality"], .beginChild,
        .line [.lit "add", .lit "heroic"], .line [.lit "remove", .lit "pacifist"],
        .endChild] := by
  decide

/-- C6 (wholesale flag removal), the code at a base with flags
{PACIFIST, TIMID} and a working record without flags: the block is opened by a
plain `personality` line and holds the per-flag list
`remove pacifist remove timid`; no `remove personality` line is written. -/
theorem wholesale_flag_removal_scenario :
    writePersonality (plainFleet 0 10 [])
        (some (plainFleet (Personality.PACIFIST ||| Personality.TIMID) 10 [])) =
      .ok [.line [.lit "personality"], .beginChild,
        .line [.lit "remove", .lit "pacifist", .lit "remove", .lit "timid"],
        .endChild] := by
  decide

/-! ## Diffing a fleet against itself -/

/-- C9 (idempotence): when the base record exists and agrees with the fleet in
government, names, fighter names, cargo, commodities, outfitters, personality
and variants, the writer completes and writes only the `fleet <name>` line and
an empty child block. -/
theorem idempotence (fleet base : Fleet)
    (hgovernment : base.government = fleet.government)
    (hnames : base.names = fleet.names)
    (hfighters : base.fighterNames = fleet.fighterNames)
    (hcargo : base.cargo = fleet.cargo)
    (_hcommodities : base.commodities = fleet.commodities)
    (houtfitters : base.outfitters = fleet.outfitters)
    (hpersonality : base.personality = fleet.personality)
    (hvariants : base.variants = fleet.variants) :
    WriteToFile fleet (some base) =
      .ok [.line [.lit "fleet", .str fleet.fleetName], .beginChild, .endChild] := by
  simp [WriteToFile, writePersonality, writeVariants, writeGovernment, writeNames,
    writeFighterNames, writeCargo, writeCommodities, writeOutfitters, noDiffOr,
    hgovernment, hnames, hfighters, hcargo, houtfitters, hpersonality, hvariants]

/-- Witness of C9: a fleet with every field set, diffed against itself. -/
theorem idempotence_witness :
    WriteToFile richFleet (some richFleet) =
      .ok [.line [.lit "fleet", .str "convoy"], .beginChild, .endChild] :=
  idempotence richFleet richFleet rfl rfl rfl rfl rfl rfl rfl rfl

/-! ## Writing a fleet that has no base -/

theorem noFraming_nil : NoFraming [] := by
  intro tokens h
  cases h

theorem noFraming_append {a b : List Out} (ha : NoFraming a) (hb : NoFraming b) :
    NoFraming (a ++ b) := by
  intro tokens h
  rcases List.mem_append.mp h with h | h
  · exact ha tokens h
  · exact hb tokens h

theorem noFraming_cons {l : Out} {a : List Out} (hl : NoFraming [l]) (ha : NoFraming a) :
    NoFraming (l :: a) :=
  noFraming_append hl ha

theorem noFraming_line {tokens : List Token}
    (h : Token.lit "add" ∉ tokens ∧ Token.lit "remove" ∉ tokens) :
    NoFraming [.line tokens] := by
  intro toks hmem
  simp only [List.mem_singleton, Out.line.injEq] at hmem
  subst hmem
  exact h

theorem noFraming_beginChild : NoFraming [.beginChild] := by
  intro toks hmem
  simp at hmem

theorem noFraming_endChild : NoFraming [.endChild] := by
  intro toks hmem
  simp at hmem

theorem noFraming_of_canonical {out : List Out} (h : ∀ l ∈ out, CanonicalEntry l) :
    NoFraming out := by
  intro tokens hmem
  have hc := h _ hmem
  match tokens, hc with
  | [.str _], _ => simp
  | [.str _, .int _], _ => simp

theorem writeShips_ok (ships : List (Option Ship)) (h : none ∉ ships) :
    ∃ out, writeShips ships = .ok out ∧ NoFraming out := by
  obtain ⟨s, rfl⟩ := exists_map_some ships h
  obtain ⟨out, h1, _, h3, _⟩ := writeShipsLoop_spec s.length s (Nat.le_refl _)
  exact ⟨out, by simpa [writeShips] using h1, noFraming_of_canonical h3⟩

/-- The plain variant blocks of a list without null ships: the writer
completes, writes no framing token, and the block of every variant is a
contiguous part of the output. -/
theorem writeAllVariants_none_spec (list : List Variant)
    (h : ∀ variant ∈ list, none ∉ variant.ships) :
    ∃ out, writeAllVariants none list = .ok out ∧ NoFraming out ∧
      ∀ variant ∈ list, ∃ ships before after, writeShips variant.ships = .ok ships ∧
        out = before ++ ([.line (.lit "variant" ::
            (if variant.weight > 1 then [.int variant.weight] else [])), .beginChild]
          ++ ships ++ [.endChild]) ++ after := by
  induction list with
  | nil => exact ⟨[], rfl, noFraming_nil, by simp⟩
  | cons v vs ih =>
    obtain ⟨rest, hrest, hnf, hblocks⟩ := ih (fun w hw => h w (List.mem_cons_of_mem _ hw))
    obtain ⟨ships, hships, hsnf⟩ := writeShips_ok v.ships (h v (List.mem_cons_self _ _))
    refine ⟨[.line (.lit "variant" :: (if v.weight > 1 then [.int v.weight] else [])),
      .beginChild] ++ ships ++ [.endChild] ++ rest, ?_, ?_, ?_⟩
    · simp [writeAllVariants, hships, hrest, optTokens]
    · refine noFraming_append (noFraming_append (noFraming_append ?_ hsnf) noFraming_endChild) hnf
      refine noFraming_cons (noFraming_line ?_) noFraming_beginChild
      split <;> simp
    · intro w hw
      rcases List.mem_cons.mp hw with rfl | hw
      · exact ⟨ships, [], rest, hships, by simp⟩
      · obtain ⟨ws, before, after, h1, h2⟩ := hblocks w hw
        refine ⟨ws, [.line (.lit "variant" :: (if v.weight > 1 then [.int v.weight] else [])),
          .beginChild] ++ ships ++ [.endChild] ++ before, after, h1, ?_⟩
        rw [h2]
        simp

theorem bitName_ne_framing : ∀ k, k < 28 → bitName k ≠ "add" ∧ bitName k ≠ "remove" := by
  decide

theorem noFraming_encode (flags : Nat) : NoFraming [.line (Encode flags none)] := by
  apply noFraming_line
  constructor <;>
  · intro hmem
    simp only [Encode, optTokens, List.nil_append, List.mem_flatMap, List.mem_filter,
      List.mem_range, List.mem_singleton, Token.lit.injEq] at hmem
    obtain ⟨k, ⟨hk, _⟩, hname⟩ := hmem
    have := bitName_ne_framing k hk
    simp_all

theorem append_middle {α : Type} {mid before block after : List α} (front back : List α)
    (h : mid = before ++ block ++ after) :
    front ++ mid ++ back = (front ++ before) ++ block ++ (after ++ back) := by
  subst h
  simp

/-- The output of the writer for a fleet that has no base and no null ship. -/
theorem writeToFile_none (fleet : Fleet) (variants : List Out)
    (hvariants : writeAllVariants none fleet.variants = .ok variants) :
    WriteToFile fleet none = .ok
      ([.line [.lit "fleet", .str fleet.fleetName], .beginChild]
        ++ writeGovernment fleet none ++ writeNames fleet none ++ writeFighterNames fleet none
        ++ writeCargo fleet none ++ writeCommodities fleet none ++ writeOutfitters fleet none
        ++ (if fleet.personality.confusionMultiplier ≠ 0 ∨ fleet.personality.flags ≠ 0 then
              [.line [.lit "personality"], .beginChild]
              ++ (if fleet.personality.confusionMultiplier ≠ 10 then
                    [.line [.lit "confusion", .real fleet.personality.confusionMultiplier]]
                  else [])
              ++ (if fleet.personality.flags ≠ 0 then
                    [.line (Encode fleet.personality.flags none)] else [])
              ++ [.endChild]
            else [])
        ++ variants ++ [.endChild]) := by
  have hp : writePersonality fleet none = .ok
      (if fleet.personality.confusionMultiplier ≠ 0 ∨ fleet.personality.flags ≠ 0 then
        [.line [.lit "personality"], .beginChild]
        ++ (if fleet.personality.confusionMultiplier ≠ 10 then
              [.line [.lit "confusion", .real fleet.personality.confusionMultiplier]]
            else [])
        ++ (if fleet.personality.flags ≠ 0 then
              [.line (Encode fleet.personality.flags none)] else [])
        ++ [.endChild]
      else []) := by
    by_cases hc : fleet.personality.confusionMultiplier = 0 <;>
    by_cases hf : fleet.personality.flags = 0 <;>
    by_cases h10 : fleet.personality.confusionMultiplier = 10 <;>
    simp [writePersonality, writeFlags, noDiffOr, writeAllFlags_eq, hc, hf, h10]
  simp only [WriteToFile, hp, writeVariants, noDiffOr, hvariants]
  simp

/-- C8 (full emission without a base), the code on a fleet without base whose
confusion multiplier is 0 and which has no flag: the multiplier is not the
default 10 of line 765, yet the writer issues the header and an empty child
block only, so the multiplier is not emitted. The guard of line 757 tests the
multiplier against zero, not against its default: the same multiplier 0 is
written as `confusion 0` once a flag is set, and a fleet with the default
multiplier 10 and no flag gets an empty `personality` block. -/
theorem full_emission_scenario :
    (plainFleet 0 0 []).personality.confusionMultiplier ≠ 10 ∧
    WriteToFile (plainFleet 0 0 []) none =
      .ok [.line [.lit "fleet", .str "patrol"], .beginChild, .endChild] ∧
    WriteToFile (plainFleet Personality.TIMID 0 []) none =
      .ok [.line [.lit "fleet", .str "patrol"], .beginChild,
        .line [.lit "personality"], .beginChild, .line [.lit "confusion", .real 0],
        .line [.lit "timid"], .endChild, .endChild] ∧
    WriteToFile (plainFleet 0 10 []) none =
      .ok [.line [.lit "fleet", .str "patrol"], .beginChild,
        .line [.lit "personality"], .beginChild, .endChild, .endChild] := by
  decide

/-- What the writer does emit for a fleet without base and without null ship
reference: it completes; no line holds an `add` or `remove` framing token; the
government, names and fighter names are written when set, the cargo when it is
not 3, the commodities and outfitters when not empty, the flags as one flat
line of all set table bits, the confusion multiplier when it is not 10 and the
multiplier is not zero or a flag is set, and every variant as a plain `variant`
block holding its run-length ship lines. -/
theorem full_emission_without_base (fleet : Fleet)
    (hships : ∀ variant ∈ fleet.variants, none ∉ variant.ships) :
    ∃ out, WriteToFile fleet none = .ok out ∧ NoFraming out ∧
      (∀ g, fleet.government = some g → .line [.lit "government", .str g.TrueName] ∈ out) ∧
      (∀ n, fleet.names = some n → .line [.lit "names", .str n.Name] ∈ out) ∧
      (∀ n, fleet.fighterNames = some n → .line [.lit "fighters", .str n.Name] ∈ out) ∧
      (fleet.cargo ≠ 3 → .line [.lit "cargo", .int fleet.cargo] ∈ out) ∧
      (fleet.commodities ≠ [] →
        .line (.lit "commodities" :: fleet.commodities.map Token.str) ∈ out) ∧
      (fleet.outfitters ≠ [] →
        .line (.lit "outfitters" :: fleet.outfitters.map (fun o => Token.str o.name)) ∈ out) ∧
      (fleet.personality.flags ≠ 0 →
        .line (((List.range 28).filter (fun k => fleet.personality.flags.testBit k)).map
          (fun k => Token.lit (bitName k))) ∈ out) ∧
      (fleet.personality.confusionMultiplier ≠ 0 ∨ fleet.personality.flags ≠ 0 →
        fleet.personality.confusionMultiplier ≠ 10 →
        .line [.lit "confusion", .real fleet.personality.confusionMultiplier] ∈ out) ∧
      (∀ variant ∈ fleet.variants, ∃ ships before after,
        writeShips variant.ships = .ok ships ∧
        out = before ++ ([.line (.lit "variant" ::
            (if variant.weight > 1 then [.int variant.weight] else [])), .beginChild]
          ++ ships ++ [.endChild]) ++ after) := by
  obtain ⟨variants, hv, hvnf, hblocks⟩ := writeAllVariants_none_spec fleet.variants hships
  have hflat : ((List.range 28).filter (fun k => fleet.personality.flags.testBit k)).map
      (fun k => Token.lit (bitName k)) = Encode fleet.personality.flags none := by
    simp only [Encode, optTokens, List.nil_append]
    exact (flatMap_singleton_eq_map _ _).symm
  rw [hflat]
  have h0 : NoFraming [.line [.lit "fleet", .str fleet.fleetName], .beginChild] :=
    noFraming_cons (noFraming_line (by simp)) noFraming_beginChild
  have hg : NoFraming (writeGovernment fleet none) := by
    unfold writeGovernment
    split
    · split
      · exact noFraming_line (by simp)
      · exact noFraming_nil
    · exact noFraming_nil
  have hn : NoFraming (writeNames fleet none) := by
    unfold writeNames
    split
    · split
      · exact noFraming_line (by simp)
      · exact noFraming_nil
    · exact noFraming_nil
  have hf : NoFraming (writeFighterNames fleet none) := by
    unfold writeFighterNames
    split
    · split
      · exact noFraming_line (by simp)
      · exact noFraming_nil
    · exact noFraming_nil
  have hc : NoFraming (writeCargo fleet none) := by
    unfold writeCargo
    split
    · split
      · exact noFraming_line (by simp)
      · exact noFraming_nil
    · exact noFraming_nil
  have hcm : NoFraming (writeCommodities fleet none) := by
    unfold writeCommodities
    split
    · split
      · exact noFraming_line (by simp)
      · exact noFraming_nil
    · exact noFraming_nil
  have ho : NoFraming (writeOutfitters fleet none) := by
    unfold writeOutfitters
    split
    · split
      · exact noFraming_line (by simp)
      · exact noFraming_nil
    · exact noFraming_nil
  have hp : NoFraming
      (if fleet.personality.confusionMultiplier ≠ 0 ∨ fleet.personality.flags ≠ 0 then
        [.line [.lit "personality"], .beginChild]
        ++ (if fleet.personality.confusionMultiplier ≠ 10 then
              [.line [.lit "confusion", .real fleet.personality.confusionMultiplier]]
            else [])
        ++ (if fleet.personality.flags ≠ 0 then
              [.line (Encode fleet.personality.flags none)] else [])
        ++ [.endChild]
      else []) := by
    split
    · refine noFraming_append (noFraming_append (noFraming_append ?_ ?_) ?_) noFraming_endChild
      · exact noFraming_cons (noFraming_line (by simp)) noFraming_beginChild
      · split
        · exact noFraming_line (by simp)
        · exact noFraming_nil
      · split
        · exact noFraming_encode _
        · exact noFraming_nil
    · exact noFraming_nil
  refine ⟨_, writeToFile_none fleet variants hv, ?_, ?_, ?_, ?_, ?_, ?_, ?_, ?_, ?_, ?_⟩
  · exact noFraming_append (noFraming_append (noFraming_append (noFraming_append
      (noFraming_append (noFraming_append (noFraming_append (noFraming_append
      (noFraming_append h0 hg) hn) hf) hc) hcm) ho) hp) hvnf) noFraming_endChild
  · intro g hg
    simp [writeGovernment, noDiffOr, hg]
  · intro n hn
    simp [writeNames, noDiffOr, hn]
  · intro n hn
    simp [writeFighterNames, noDiffOr, hn]
  · intro hc
    simp [writeCargo, noDiffOr, hc]
  · intro hc
    simp [writeCommodities, noDiffOr, hc]
  · intro ho
    simp [writeOutfitters, noDiffOr, ho]
  · intro hf
    simp [hf]
  · intro hp h10
    simp [hp, h10]
  · intro variant hvar
    obtain ⟨ships, before, after, h1, h2⟩ := hblocks variant hvar
    exact ⟨ships, _, _, h1, append_middle _ _ h2⟩

/-- An instance of the emission without base: a new fleet with a government,
cargo 5, two flags, confusion multiplier 20 and one variant of three ships. -/
theorem full_emission_without_base_witness :
    ∃ out, WriteToFile { richFleet with variants := [⟨2, [some ⟨"Hauler"⟩, some ⟨"Hauler"⟩,
        some ⟨"Escort"⟩]⟩] } none = .ok out ∧ NoFraming out ∧
      .line [.lit "cargo", .int 5] ∈ out ∧
      .line [.lit "timid", .lit "escort"] ∈ out := by
  obtain ⟨out, h, hnf, _, _, _, hcargo, _, _, hflags, _⟩ :=
    full_emission_without_base { richFleet with variants := [⟨2, [some ⟨"Hauler"⟩,
      some ⟨"Hauler"⟩, some ⟨"Escort"⟩]⟩] } (by decide)
  exact ⟨out, h, hnf, hcargo (by decide), hflags (by decide)⟩

/-! ## The variant list delta -/

theorem foldl_insert_eq_filter (other : List Variant) (l acc : List Variant) :
    l.foldl (fun toAdd it => if Count other it = 0 then Insert toAdd it else toAdd) acc =
      acc ++ l.filter (fun v => decide (v ∉ other)) := by
  induction l generalizing acc with
  | nil => simp
  | cons x xs ih =>
    by_cases hx : x ∈ other
    · have hc : Count other x ≠ 0 := by
        unfold Count
        exact fun h => (List.count_eq_zero.mp h) hx
      simp [List.foldl_cons, ih, hc, hx, List.filter_cons]
    · have hc : Count other x = 0 := by
        unfold Count
        exact List.count_eq_zero.mpr hx
      rw [List.foldl_cons, if_pos hc, ih]
      simp [hx, List.filter_cons, Insert]

theorem toAdd_eq_filter (working base : List Variant) :
    Variants.toAdd working base = working.filter (fun v => decide (v ∉ base)) := by
  simp [Variants.toAdd, foldl_insert_eq_filter]

theorem toRemove_eq_filter (working base : List Variant) :
    Variants.toRemove working base = base.filter (fun v => decide (v ∉ working)) := by
  simp [Variants.toRemove, foldl_insert_eq_filter]

theorem writeAllVariants_ok (opt : Option String) (list : List Variant)
    (h : ∀ variant ∈ list, none ∉ variant.ships) :
    ∃ out, writeAllVariants opt list = .ok out := by
  induction list with
  | nil => exact ⟨[], rfl⟩
  | cons v vs ih =>
    obtain ⟨rest, hrest⟩ := ih (fun w hw => h w (List.mem_cons_of_mem _ hw))
    obtain ⟨ships, hships, _⟩ := writeShips_ok v.ships (h v (List.mem_cons_self _ _))
    exact ⟨[.line (optTokens opt ++ [.lit "variant"]
        ++ (if v.weight > 1 then [.int v.weight] else [])), .beginChild]
      ++ ships ++ [.endChild] ++ rest, by simp only [writeAllVariants, hships, hrest]⟩

/-- C10 (list delta), where the claim fails: at its own scenario, base
[A,A,A,B] and working [A,A,B,B,B], both delta lists are empty and the variant
block returns without writing a directive: no A is removed and no B is added. -/
theorem list_delta_counterexample :
    Variants.toAdd [single "A", single "A", single "B", single "B", single "B"]
      [single "A", single "A", single "A", single "B"] = [] ∧
    Variants.toRemove [single "A", single "A", single "B", single "B", single "B"]
      [single "A", single "A", single "A", single "B"] = [] ∧
    writeVariants
      (plainFleet 0 10 [single "A", single "A", single "B", single "B", single "B"])
      (some (plainFleet 0 10 [single "A", single "A", single "A", single "B"])) =
        .ok ([], true) := by
  decide

/-- C10 as amended: the list delta goes by presence. `toAdd` holds the working
items that do not occur in the base at all, each as often as it occurs in the
working list, and `toRemove` the base items that do not occur in the working
list at all, each as often as it occurs in the base; an item that occurs in
both lists is in neither, whatever its multiplicities. When no ship reference
is null, one of the two lists is not empty and the base is empty or keeps an
item that the working list has, the block writes `add` blocks for `toAdd`
followed by `remove` blocks for `toRemove`. -/
theorem list_delta_by_presence (fleet base : Fleet) :
    Variants.toAdd fleet.variants base.variants =
      fleet.variants.filter (fun v => decide (v ∉ base.variants)) ∧
    Variants.toRemove fleet.variants base.variants =
      base.variants.filter (fun v => decide (v ∉ fleet.variants)) ∧
    (∀ v, v ∉ base.variants →
      (Variants.toAdd fleet.variants base.variants).count v = fleet.variants.count v) ∧
    (∀ v, v ∉ fleet.variants →
      (Variants.toRemove fleet.variants base.variants).count v = base.variants.count v) ∧
    (∀ v, v ∈ fleet.variants → v ∈ base.variants →
      v ∉ Variants.toAdd fleet.variants base.variants ∧
      v ∉ Variants.toRemove fleet.variants base.variants) ∧
    ((∀ variant ∈ fleet.variants, none ∉ variant.ships) →
      (∀ variant ∈ base.variants, none ∉ variant.ships) →
      (Variants.toAdd fleet.variants base.variants ≠ [] ∨
        Variants.toRemove fleet.variants base.variants ≠ []) →
      (base.variants = [] ∨ ∃ v ∈ base.variants, v ∈ fleet.variants) →
      ∃ added removed,
        writeAllVariants (some "add") (Variants.toAdd fleet.variants base.variants)
          = .ok added ∧
        writeAllVariants (some "remove") (Variants.toRemove fleet.variants base.variants)
          = .ok removed ∧
        writeVariants fleet (some base) = .ok (added ++ removed, false)) := by
  refine ⟨toAdd_eq_filter _ _, toRemove_eq_filter _ _, ?_, ?_, ?_, ?_⟩
  · intro v hv
    rw [toAdd_eq_filter]
    exact List.count_filter (by simpa using hv)
  · intro v hv
    rw [toRemove_eq_filter]
    exact List.count_filter (by simpa using hv)
  · intro v hw hb
    rw [toAdd_eq_filter, toRemove_eq_filter]
    simp [hw, hb]
  · intro hfs hbs hne hkeep
    have hadd : ∀ variant ∈ Variants.toAdd fleet.variants base.variants,
        none ∉ variant.ships := by
      intro w hw
      rw [toAdd_eq_filter] at hw
      exact hfs w (List.mem_filter.mp hw).1
    have hrem : ∀ variant ∈ Variants.toRemove fleet.variants base.variants,
        none ∉ variant.ships := by
      intro w hw
      rw [toRemove_eq_filter] at hw
      exact hbs w (List.mem_filter.mp hw).1
    obtain ⟨added, ha⟩ := writeAllVariants_ok (some "add") _ hadd
    obtain ⟨removed, hr⟩ := writeAllVariants_ok (some "remove") _ hrem
    refine ⟨added, removed, ha, hr, ?_⟩
    have hdiff : fleet.variants ≠ base.variants := by
      intro heq
      rw [toAdd_eq_filter, toRemove_eq_filter, heq] at hne
      simp at hne
    have hnotall : ¬ ((Variants.toRemove fleet.variants base.variants).length
        = base.variants.length ∧ ¬ base.variants.isEmpty = true) := by
      rintro ⟨hlen, hnonempty⟩
      rcases hkeep with hnil | ⟨v, hvb, hvf⟩
      · simp [hnil] at hnonempty
      · rw [toRemove_eq_filter] at hlen
        have hall := List.filter_length_eq_length.mp hlen
        simpa [hvf] using hall v hvb
    have hnotboth : ¬ ((Variants.toAdd fleet.variants base.variants).isEmpty = true ∧
        (Variants.toRemove fleet.variants base.variants).isEmpty = true) := by
      rintro ⟨h1, h2⟩
      rcases hne with h | h
      · exact h (List.isEmpty_iff.mp h1)
      · exact h (List.isEmpty_iff.mp h2)
    have ha' : (if ¬ (Variants.toAdd fleet.variants base.variants).isEmpty = true then
        writeAllVariants (some "add") (Variants.toAdd fleet.variants base.variants)
        else .ok []) = .ok added := by
      split
      · exact ha
      · rename_i h
        have : Variants.toAdd fleet.variants base.variants = [] :=
          List.isEmpty_iff.mp (by simpa using h)
        rw [this] at ha
        simpa [writeAllVariants] using ha
    have hr' : (if ¬ (Variants.toRemove fleet.variants base.variants).isEmpty = true then
        writeAllVariants (some "remove") (Variants.toRemove fleet.variants base.variants)
        else .ok []) = .ok removed := by
      split
      · exact hr
      · rename_i h
        have : Variants.toRemove fleet.variants base.variants = [] :=
          List.isEmpty_iff.mp (by simpa using h)
        rw [this] at hr
        simpa [writeAllVariants] using hr
    simp only [writeVariants, noDiffOr, ne_eq, hdiff, not_false_eq_true, decide_True,
      if_true, hnotboth, if_false, hnotall, ha', hr']

/-- Witness of C10 as amended: base [A, B] and working [A, C, C]: A stays, the
two C are added and B is removed. -/
theorem list_delta_by_presence_witness :
    (Variants.toAdd [single "A", single "C", single "C"] [single "A", single "B"] ≠ [] ∨
      Variants.toRemove [single "A", single "C", single "C"] [single "A", single "B"] ≠ []) ∧
    (∃ v ∈ [single "A", single "B"], v ∈ [single "A", single "C", single "C"]) ∧
    ∃ added removed,
      writeAllVariants (some "add")
        (Variants.toAdd [single "A", single "C", single "C"] [single "A", single "B"])
          = .ok added ∧
      writeAllVariants (some "remove")
        (Variants.toRemove [single "A", single "C", single "C"] [single "A", single "B"])
          = .ok removed ∧
      writeVariants (plainFleet 0 10 [single "A", single "C", single "C"])
        (some (plainFleet 0 10 [single "A", single "B"])) = .ok (added ++ removed, false) :=
  ⟨by decide, by decide,
    (list_delta_by_presence (plainFleet 0 10 [single "A", single "C", single "C"])
      (plainFleet 0 10 [single "A", single "B"])).2.2.2.2.2
      (by decide) (by decide) (by decide) (Or.inr (by decide))⟩

/-! ## Removing every variant -/

theorem countP_removeVariant_of_noFraming {out : List Out} (h : NoFraming out) :
    out.countP isRemoveVariant = 0 := by
  rw [List.countP_eq_zero]
  intro l hl
  match l, hl with
  | .beginChild, _ => simp [isRemoveVariant]
  | .endChild, _ => simp [isRemoveVariant]
  | .line [], _ => simp [isRemoveVariant]
  | .line [_], _ => simp [isRemoveVariant]
  | .line (first :: second :: rest), hl =>
    have := (h _ hl).2
    simp only [isRemoveVariant, decide_eq_true_eq, not_and]
    intro hfirst
    subst hfirst
    simp at this

/-- The `remove` blocks of a list of variants without null ship: the writer
completes and opens one `remove variant` block for every variant. -/
theorem writeAllVariants_remove_spec (list : List Variant)
    (h : ∀ variant ∈ list, none ∉ variant.ships) :
    ∃ out, writeAllVariants (some "remove") list = .ok out ∧
      out.countP isRemoveVariant = list.length := by
  induction list with
  | nil => exact ⟨[], rfl, rfl⟩
  | cons v vs ih =>
    obtain ⟨rest, hrest, hcount⟩ := ih (fun w hw => h w (List.mem_cons_of_mem _ hw))
    obtain ⟨ships, hships, hnf⟩ := writeShips_ok v.ships (h v (List.mem_cons_self _ _))
    refine ⟨[.line (optTokens (some "remove") ++ [.lit "variant"]
        ++ (if v.weight > 1 then [.int v.weight] else [])), .beginChild]
      ++ ships ++ [.endChild] ++ rest, by simp only [writeAllVariants, hships, hrest], ?_⟩
    simp only [List.countP_append, hcount, countP_removeVariant_of_noFraming hnf,
      List.length_cons]
    simp [optTokens, isRemoveVariant, List.countP_cons]
    omega

/-- C11 (wholesale list removal), where the claim fails: with the base variants
[A, B] and no working variant the block holds two `remove variant` blocks, one
for every base variant, not a single directive. -/
theorem wholesale_list_removal_counterexample :
    writeVariants (plainFleet 0 10 []) (some (plainFleet 0 10 [single "A", single "B"])) =
      .ok ([.line [.lit "remove", .lit "variant"], .beginChild, .line [.str "A"], .endChild,
            .line [.lit "remove", .lit "variant"], .beginChild, .line [.str "B"], .endChild],
        false) := by
  decide

/-- C11 as amended: for a fleet without variants whose base has variants, none
with a null ship, the variant block is the base list written with `remove`: one
`remove variant` block for every base variant, in the order of the base. -/
theorem wholesale_list_removal (fleet base : Fleet) (hworking : fleet.variants = [])
    (hbase : base.variants ≠ [])
    (hships : ∀ variant ∈ base.variants, none ∉ variant.ships) :
    ∃ out, writeAllVariants (some "remove") base.variants = .ok out ∧
      writeVariants fleet (some base) = .ok (out, false) ∧
      out.countP isRemoveVariant = base.variants.length := by
  obtain ⟨out, hout, hcount⟩ := writeAllVariants_remove_spec base.variants hships
  refine ⟨out, hout, ?_, hcount⟩
  have hne : fleet.variants ≠ base.variants := by
    rw [hworking]; exact fun h => hbase h.symm
  have hadd : Variants.toAdd fleet.variants base.variants = [] := by
    rw [toAdd_eq_filter, hworking]; rfl
  have hrem : Variants.toRemove fleet.variants base.variants = base.variants := by
    rw [toRemove_eq_filter, hworking]
    simp
  have hnotempty : ¬ base.variants.isEmpty = true := by
    simpa [List.isEmpty_iff] using hbase
  simp only [writeVariants, noDiffOr, ne_eq, hne, not_false_eq_true, decide_True, if_true,
    hadd, hrem, List.isEmpty_nil, true_and, hnotempty, if_false, and_self]
  simp [hworking, hout]

/-- Witness of C11 as amended: every variant of a base with three variants is
removed, by three `remove variant` blocks. -/
theorem wholesale_list_removal_witness :
    ∃ out, writeAllVariants (some "remove") [single "A", single "B", single "A"] = .ok out ∧
      writeVariants (plainFleet 0 10 [])
        (some (plainFleet 0 10 [single "A", single "B", single "A"])) = .ok (out, false) ∧
      out.countP isRemoveVariant = 3 :=
  wholesale_list_removal (plainFleet 0 10 [])
    (plainFleet 0 10 [single "A", single "B", single "A"]) rfl (by decide) (by decide)

/-! ## The outfitters of a fleet -/

/-- C20 (set-valued field diff), where the claim fails: with the base
outfitters {A, B} and the working outfitters {B, C} the writer emits the whole
working set on one `outfitters` line, not the addition of C and the removal of
A; and a working set emptied from the base {A} gives no directive at all. -/
theorem outfitters_counterexample :
    writeOutfitters { plainFleet 0 10 [] with outfitters := [⟨"B"⟩, ⟨"C"⟩] }
        (some { plainFleet 0 10 [] with outfitters := [⟨"A"⟩, ⟨"B"⟩] }) =
      [.line [.lit "outfitters", .str "B", .str "C"]] ∧
    writeOutfitters (plainFleet 0 10 [])
        (some { plainFleet 0 10 [] with outfitters := [⟨"A"⟩] }) = [] := by
  decide

/-- C20 as amended: for a fleet whose outfitter set differs from that of its
base and is not empty, the outfitter directive is one `outfitters` line that
lists the whole working set, without `add` or `remove` framing. -/
theorem outfitters_overwrite (fleet base : Fleet)
    (hdiffers : fleet.outfitters ≠ base.outfitters) (hnonempty : fleet.outfitters ≠ []) :
    writeOutfitters fleet (some base) =
      [.line (.lit "outfitters" :: fleet.outfitters.map (fun o => Token.str o.name))] ∧
    NoFraming (writeOutfitters fleet (some base)) := by
  have h : writeOutfitters fleet (some base) =
      [.line (.lit "outfitters" :: fleet.outfitters.map (fun o => Token.str o.name))] := by
    simp [writeOutfitters, noDiffOr, hdiffers, hnonempty]
  rw [h]
  exact ⟨rfl, noFraming_line (by simp)⟩

/-- Witness of C20 as amended: base outfitters {A, B}, working outfitters
{B, C}. -/
theorem outfitters_overwrite_witness :
    writeOutfitters { plainFleet 0 10 [] with outfitters := [⟨"B"⟩, ⟨"C"⟩] }
        (some { plainFleet 0 10 [] with outfitters := [⟨"A"⟩, ⟨"B"⟩] }) =
      [.line (.lit "outfitters" :: [.str "B", .str "C"])] ∧
    NoFraming (writeOutfitters { plainFleet 0 10 [] with outfitters := [⟨"B"⟩, ⟨"C"⟩] }
        (some { plainFleet 0 10 [] with outfitters := [⟨"A"⟩, ⟨"B"⟩] })) :=
  outfitters_overwrite { plainFleet 0 10 [] with outfitters := [⟨"B"⟩, ⟨"C"⟩] }
    { plainFleet 0 10 [] with outfitters := [⟨"A"⟩, ⟨"B"⟩] } (by decide) (by decide)

/-! ## The commodities of a fleet -/

/-- The commodities test of line 739 compares the working commodities with
themselves: with a base, nothing is ever written for them. -/
theorem writeCommodities_base (fleet base : Fleet) :
    writeCommodities fleet (some base) = [] := by
  simp [writeCommodities, noDiffOr]

/-- C21 (changed commodities are serialized), the code on a fleet with the
commodities [Food, Metal] whose base has [Food]: the commodities differ, yet
the writer issues the header and an empty child block only, without a
commodities line. -/
theorem changed_commodities_scenario :
    ({ plainFleet 0 10 [] with commodities := ["Food", "Metal"] } : Fleet).commodities ≠
      ({ plainFleet 0 10 [] with commodities := ["Food"] } : Fleet).commodities ∧
    WriteToFile { plainFleet 0 10 [] with commodities := ["Food", "Metal"] }
        (some { plainFleet 0 10 [] with commodities := ["Food"] }) =
      .ok [.line [.lit "fleet", .str "patrol"], .beginChild, .endChild] := by
  decide

/-! ## A null ship reference -/

/-- C23 (malformed reference is not a fault), the code on a new fleet with one
variant whose ship list holds the null reference that `Add Ship` appends: the
ship loop dereferences it and the writer does not complete. -/
theorem null_ship_scenario :
    WriteToFile (plainFleet 0 10 [⟨1, [none]⟩]) none = .error .nullDeref := by
  decide

/-! ## The nesting of the fleet block -/

/-- C24 (balanced block nesting), the code on a fleet with the variants [B, A]
whose base has [A, B]: the lists differ as vectors, both delta lists are empty,
and the function returns at line 851 after one `BeginChild` and no
`EndChild`. -/
theorem unbalanced_scenario :
    WriteToFile (plainFleet 0 10 [single "B", single "A"])
        (some (plainFleet 0 10 [single "A", single "B"])) =
      .ok [.line [.lit "fleet", .str "patrol"], .beginChild] ∧
    beginCount [.line [.lit "fleet", .str "patrol"], .beginChild] = 1 ∧
    endCount [.line [.lit "fleet", .str "patrol"], .beginChild] = 0 := by
  decide

/-! ## Rebuilding the working flags -/

theorem testBit_clearBits (mask bits i : Nat) :
    (clearBits mask bits).testBit i = (mask.testBit i && !bits.testBit i) := by
  simp only [clearBits, Nat.testBit_xor, Nat.testBit_and]
  cases mask.testBit i <;> cases bits.testBit i <;> rfl

/-- C25 (the flag delta reconstructs the working mask): `toAdd` and `toRemove`
share no bit, and the base with the bits of `toRemove` cleared and the bits of
`toAdd` set is the working mask. -/
theorem flag_delta_reconstructs (working base : Nat) :
    Flags.toAdd working base &&& Flags.toRemove working base = 0 ∧
    clearBits base (Flags.toRemove working base) ||| Flags.toAdd working base = working ∧
    (∀ i, (clearBits base (Flags.toRemove working base)).testBit i =
      (base.testBit i && !(Flags.toRemove working base).testBit i)) := by
  refine ⟨?_, ?_, fun i => testBit_clearBits _ _ i⟩
  · apply Nat.eq_of_testBit_eq
    intro i
    simp only [Flags.toAdd, Flags.toRemove, Nat.testBit_and, Nat.testBit_xor,
      Nat.zero_testBit]
    cases working.testBit i <;> cases base.testBit i <;> rfl
  · apply Nat.eq_of_testBit_eq
    intro i
    simp only [Nat.testBit_or, testBit_clearBits, Flags.toAdd, Flags.toRemove,
      Nat.testBit_and, Nat.testBit_xor]
    cases working.testBit i <;> cases base.testBit i <;> rfl

/-! ## The cargo line -/

theorem isCargoLine_eq_true {l : Out} (h : isCargoLine l = true) :
    ∃ n, l = .line [.lit "cargo", .int n] := by
  match l, h with
  | .line [first, .int n], h =>
    simp only [isCargoLine, decide_eq_true_eq] at h
    exact ⟨n, by rw [h]⟩

theorem filter_cargo_eq_nil {out : List Out} (h : NoCargo out) :
    out.filter isCargoLine = [] := by
  rw [List.filter_eq_nil_iff]
  intro l hl hc
  obtain ⟨n, rfl⟩ := isCargoLine_eq_true hc
  exact h n hl

theorem noCargo_nil : NoCargo [] := by
  intro n h
  cases h

theorem noCargo_append {a b : List Out} (ha : NoCargo a) (hb : NoCargo b) :
    NoCargo (a ++ b) := by
  intro n h
  rcases List.mem_append.mp h with h | h
  · exact ha n h
  · exact hb n h

theorem noCargo_cons {l : Out} {a : List Out}
    (hl : ∀ n, l ≠ .line [.lit "cargo", .int n]) (ha : NoCargo a) : NoCargo (l :: a) := by
  intro n h
  rcases List.mem_cons.mp h with h | h
  · exact hl n h.symm
  · exact ha n h

theorem encode_lit (flags : Nat) (opt : Option String) :
    ∀ t ∈ Encode flags opt, ∃ name, t = Token.lit name := by
  intro t ht
  simp only [Encode, List.mem_flatMap, List.mem_append, List.mem_singleton] at ht
  obtain ⟨k, _, h | h⟩ := ht
  · cases opt with
    | none => simp [optTokens] at h
    | some o =>
      simp only [optTokens, List.mem_singleton] at h
      exact ⟨o, h⟩
  · exact ⟨_, h⟩

theorem noCargo_writeAllFlags (flags : Nat) (opt : Option String) {out : List Out}
    (h : writeAllFlags flags opt = .ok out) : NoCargo out := by
  rw [writeAllFlags_eq] at h
  cases h
  refine noCargo_cons ?_ noCargo_nil
  intro n hmem
  simp only [Out.line.injEq] at hmem
  obtain ⟨name, hname⟩ := encode_lit flags opt (.int n) (by rw [hmem]; simp)
  cases hname

theorem noCargo_ite_writeAllFlags (c : Prop) [Decidable c] (flags : Nat)
    (opt : Option String) {out : List Out}
    (h : (if c then writeAllFlags flags opt else .ok []) = .ok out) : NoCargo out := by
  split at h
  · exact noCargo_writeAllFlags _ _ h
  · cases h
    exact noCargo_nil

theorem noCargo_writeFlags (fleet : Fleet) (diff : Option Fleet) {out : List Out}
    (h : writeFlags fleet diff = .ok out) : NoCargo out := by
  cases diff with
  | none =>
    simp only [writeFlags] at h
    exact noCargo_ite_writeAllFlags _ _ _ h
  | some d =>
    simp only [writeFlags] at h
    split at h
    · split at h
      · cases h
        exact noCargo_cons (by simp) noCargo_nil
      · exact noCargo_writeAllFlags _ _ h
    · split at h
      · cases h
      · rename_i added hadded
        split at h
        · cases h
        · rename_i removed hremoved
          cases h
          exact noCargo_append (noCargo_ite_writeAllFlags _ _ _ hadded)
            (noCargo_ite_writeAllFlags _ _ _ hremoved)

theorem noCargo_writePersonality (fleet : Fleet) (diff : Option Fleet) {out : List Out}
    (h : writePersonality fleet diff = .ok out) : NoCargo out := by
  simp only [writePersonality] at h
  split at h
  · split at h
    · split at h
      · cases h
      · rename_i flags hflags
        cases h
        refine noCargo_append (noCargo_append (noCargo_append ?_ ?_)
          (noCargo_writeFlags fleet diff hflags)) (noCargo_cons (by simp) noCargo_nil)
        · refine noCargo_cons ?_ (noCargo_cons (by simp) noCargo_nil)
          intro n
          split <;> simp
        · split
          · exact noCargo_cons (by simp) noCargo_nil
          · exact noCargo_nil
    · cases h
      exact noCargo_nil
  · cases h
    exact noCargo_nil

theorem canonical_of_writeShips {ships : List (Option Ship)} {out : List Out}
    (h : writeShips ships = .ok out) : ∀ l ∈ out, CanonicalEntry l := by
  by_cases hnull : none ∈ ships
  · have := writeShipsLoop_null ships.length ships (Nat.le_refl _) hnull
    rw [writeShips] at h
    rw [h] at this
    cases this
  · obtain ⟨s, rfl⟩ := exists_map_some ships hnull
    obtain ⟨out2, h1, _, h3, _⟩ := writeShipsLoop_spec s.length s (Nat.le_refl _)
    have h2 : writeShips (s.map some) = .ok out2 := by simpa [writeShips] using h1
    rw [h] at h2
    cases h2
    exact h3

theorem noCargo_writeShips {ships : List (Option Ship)} {out : List Out}
    (h : writeShips ships = .ok out) : NoCargo out := by
  intro n hmem
  have hc := canonical_of_writeShips h _ hmem
  simp [CanonicalEntry] at hc

theorem noCargo_writeAllVariants (opt : Option String) :
    ∀ (list : List Variant) (out : List Out), writeAllVariants opt list = .ok out →
      NoCargo out := by
  intro list
  induction list with
  | nil =>
    intro out h
    simp only [writeAllVariants] at h
    cases h
    exact noCargo_nil
  | cons v vs ih =>
    intro out h
    simp only [writeAllVariants] at h
    split at h
    · cases h
    · rename_i ships hships
      split at h
      · cases h
      · rename_i rest hrest
        cases h
        refine noCargo_append (noCargo_append (noCargo_append ?_ (noCargo_writeShips hships))
          (noCargo_cons (by simp) noCargo_nil)) (ih rest hrest)
        refine noCargo_cons ?_ (noCargo_cons (by simp) noCargo_nil)
        intro n
        cases opt with
        | none =>
          simp only [optTokens, List.nil_append, List.singleton_append, ne_eq, Out.line.injEq,
            List.cons.injEq, Token.lit.injEq]
          intro hm
          exact absurd hm.1 (by decide)
        | some o =>
          simp [optTokens]

theorem noCargo_ite_writeAllVariants (c : Prop) [Decidable c] (opt : Option String)
    (list : List Variant) {out : List Out}
    (h : (if c then writeAllVariants opt list else .ok []) = .ok out) : NoCargo out := by
  split at h
  · exact noCargo_writeAllVariants _ _ _ h
  · cases h
    exact noCargo_nil

theorem noCargo_writeVariants (fleet : Fleet) (diff : Option Fleet) {out : List Out}
    {returned : Bool} (h : writeVariants fleet diff = .ok (out, returned)) : NoCargo out := by
  simp only [writeVariants] at h
  split at h
  · cases diff with
    | none =>
      simp only at h
      split at h
      · cases h
      · rename_i o ho
        cases h
        exact noCargo_writeAllVariants none _ _ ho
    | some d =>
      simp only at h
      split at h
      · cases h
        exact noCargo_nil
      · split at h
        · split at h
          · cases h
          · rename_i o ho
            cases h
            split at ho
            · exact noCargo_writeAllVariants _ _ _ ho
            · exact noCargo_writeAllVariants _ _ _ ho
        · split at h
          · cases h
          · rename_i added hadded
            split at h
            · cases h
            · rename_i removed hremoved
              cases h
              exact noCargo_append (noCargo_ite_writeAllVariants _ _ _ hadded)
                (noCargo_ite_writeAllVariants _ _ _ hremoved)
  · cases h
    exact noCargo_nil

theorem noCargo_writeGovernment (fleet : Fleet) (diff : Option Fleet) :
    NoCargo (writeGovernment fleet diff) := by
  unfold writeGovernment
  split
  · split
    · exact noCargo_cons (by simp) noCargo_nil
    · exact noCargo_nil
  · exact noCargo_nil

theorem noCargo_writeNames (fleet : Fleet) (diff : Option Fleet) :
    NoCargo (writeNames fleet diff) := by
  unfold writeNames
  split
  · split
    · exact noCargo_cons (by simp) noCargo_nil
    · exact noCargo_nil
  · exact noCargo_nil

theorem noCargo_writeFighterNames (fleet : Fleet) (diff : Option Fleet) :
    NoCargo (writeFighterNames fleet diff) := by
  unfold writeFighterNames
  split
  · split
    · exact noCargo_cons (by simp) noCargo_nil
    · exact noCargo_nil
  · exact noCargo_nil

theorem noCargo_writeCommodities (fleet : Fleet) (diff : Option Fleet) :
    NoCargo (writeCommodities fleet diff) := by
  unfold writeCommodities
  split
  · split
    · exact noCargo_cons (by simp) noCargo_nil
    · exact noCargo_nil
  · exact noCargo_nil

theorem noCargo_writeOutfitters (fleet : Fleet) (diff : Option Fleet) :
    NoCargo (writeOutfitters fleet diff) := by
  unfold writeOutfitters
  split
  · split
    · exact noCargo_cons (by simp) noCargo_nil
    · exact noCargo_nil
  · exact noCargo_nil

theorem filter_cargo_writeCargo (fleet : Fleet) (diff : Option Fleet) :
    (writeCargo fleet diff).filter isCargoLine = writeCargo fleet diff := by
  unfold writeCargo
  split
  · split
    · simp [isCargoLine]
    · rfl
  · rfl

/-- C22 (scalar overwrite): with a base the cargo block is the line
`cargo <working value>` when the working cargo differs from the base cargo and
nothing otherwise; without a base it is that line when the cargo is not 3 and
nothing otherwise; and in every completed run of the writer the cargo lines of
the output are exactly those of the cargo block. -/
theorem scalar_overwrite (fleet : Fleet) :
    (∀ base : Fleet, writeCargo fleet (some base) =
      if fleet.cargo ≠ base.cargo then [.line [.lit "cargo", .int fleet.cargo]] else []) ∧
    (writeCargo fleet none =
      if fleet.cargo ≠ 3 then [.line [.lit "cargo", .int fleet.cargo]] else []) ∧
    (∀ (diff : Option Fleet) (out : List Out), WriteToFile fleet diff = .ok out →
      out.filter isCargoLine = writeCargo fleet diff) := by
  refine ⟨?_, ?_, ?_⟩
  · intro base
    by_cases h : fleet.cargo = base.cargo <;> simp [writeCargo, noDiffOr, h]
  · by_cases h : fleet.cargo = 3 <;> simp [writeCargo, noDiffOr, h]
  · intro diff out h
    simp only [WriteToFile] at h
    split at h
    · cases h
    · rename_i personality hpersonality
      split at h
      · cases h
      · rename_i variants returned hvariants
        cases h
        have hend : NoCargo (if returned = true then [] else [Out.endChild]) := by
          split
          · exact noCargo_nil
          · exact noCargo_cons (by simp) noCargo_nil
        have hhead : NoCargo [Out.line [.lit "fleet", .str fleet.fleetName], .beginChild] :=
          noCargo_cons (by simp) (noCargo_cons (by simp) noCargo_nil)
        simp only [List.filter_append, filter_cargo_writeCargo,
          filter_cargo_eq_nil hhead, filter_cargo_eq_nil hend,
          filter_cargo_eq_nil (noCargo_writeGovernment fleet diff),
          filter_cargo_eq_nil (noCargo_writeNames fleet diff),
          filter_cargo_eq_nil (noCargo_writeFighterNames fleet diff),
          filter_cargo_eq_nil (noCargo_writeCommodities fleet diff),
          filter_cargo_eq_nil (noCargo_writeOutfitters fleet diff),
          filter_cargo_eq_nil (noCargo_writePersonality fleet diff hpersonality),
          filter_cargo_eq_nil (noCargo_writeVariants fleet diff hvariants),
          List.nil_append, List.append_nil]

/-- Witness of C22: the fleet with every field set and cargo 5, written without
a base, has the single cargo line `cargo 5`. -/
theorem scalar_overwrite_witness :
    WriteToFile { richFleet with variants := [] } none =
      .ok [.line [.lit "fleet", .str "convoy"], .beginChild,
        .line [.lit "government", .str "Merchant"], .line [.lit "names", .str "civilian"],
        .line [.lit "fighters", .str "fighter"], .line [.lit "cargo", .int 5],
        .line [.lit "commodities", .str "Food", .str "Metal"],
        .line [.lit "outfitters", .str "Common Outfits"],
        .line [.lit "personality"], .beginChild, .line [.lit "confusion", .real 20],
        .line [.lit "timid", .lit "escort"], .endChild, .endChild] ∧
    List.filter isCargoLine
      [.line [.lit "fleet", .str "convoy"], .beginChild,
        .line [.lit "government", .str "Merchant"], .line [.lit "names", .str "civilian"],
        .line [.lit "fighters", .str "fighter"], .line [.lit "cargo", .int 5],
        .line [.lit "commodities", .str "Food", .str "Metal"],
        .line [.lit "outfitters", .str "Common Outfits"],
        .line [.lit "personality"], .beginChild, .line [.lit "confusion", .real 20],
        .line [.lit "timid", .lit "escort"], .endChild, .endChild] =
      writeCargo { richFleet with variants := [] } none :=
  ⟨by decide, (scalar_overwrite { richFleet with variants := [] }).2.2 none _ (by decide)⟩

end FleetEditor

namespace SystemEditor

open FleetEditor

/-! ## The tree invariant and its two forms -/

theorem parentAt_of_getElem? {objects : List StellarObject} {j : Nat} {object : StellarObject}
    (h : objects[j]? = some object) : parentAt objects j = object.parent := by
  simp [parentAt, h]

theorem descends_lt {objects : List StellarObject} (hw : WellParented objects) {q j : Nat}
    (h : Descends objects q j) : q < j := by
  induction h with
  | child hj hp =>
    rcases hw _ hj with h1 | ⟨_, h2⟩
    · omega
    · omega
  | step hj hp _ ih =>
    rcases hw _ hj with h1 | ⟨_, h2⟩
    · omega
    · omega

theorem descends_trans {objects : List StellarObject} {q m j : Nat}
    (h1 : Descends objects q m) (h2 : Descends objects m j) : Descends objects q j := by
  induction h2 with
  | child hj hp => exact Descends.step hj hp h1
  | step hj hp _ ih => exact Descends.step hj hp ih

theorem descends_le_parent {objects : List StellarObject} (hw : WellParented objects)
    {q j : Nat} (h : Descends objects q j) : (q : Int) ≤ parentAt objects j := by
  cases h with
  | child hj hp => omega
  | step hj hp hm =>
    have := descends_lt hw hm
    omega

theorem descends_between {objects : List StellarObject} (hw : WellParented objects)
    (hn : Nested objects) {q j : Nat} (hj : j < objects.length)
    (hq : parentAt objects j = q) :
    ∀ k, q < k → k < j → Descends objects q k := by
  intro k
  induction k using Nat.strong_induction_on with
  | _ k ih =>
    intro hqk hkj
    have hk : k < objects.length := by omega
    have hge := hn j hj k hkj (by omega)
    rcases hw k hk with h1 | ⟨h0, h2⟩
    · omega
    · by_cases hm : parentAt objects k = q
      · exact Descends.child hk hm
      · have hcast : parentAt objects k = ((parentAt objects k).toNat : Int) := by omega
        exact Descends.step hk hcast (ih _ (by omega) (by omega) (by omega))

/-- For an array with the tree invariant, the test on parent indices is the
contiguity of subtrees. -/
theorem preOrder_iff (objects : List StellarObject) :
    PreOrder objects ↔ WellParented objects ∧ Nested objects := by
  constructor
  · rintro ⟨hw, hc⟩
    refine ⟨hw, ?_⟩
    intro j hj k hkj hlt
    have hk : k < objects.length := by omega
    rcases hw j hj with h1 | ⟨h0, h2⟩
    · rcases hw k hk with h3 | ⟨h4, _⟩ <;> omega
    · have hcast : parentAt objects j = ((parentAt objects j).toNat : Int) := by omega
      have hd := hc _ _ (Descends.child hj hcast) k (by omega) hkj
      have := descends_le_parent hw hd
      omega
  · rintro ⟨hw, hn⟩
    refine ⟨hw, ?_⟩
    intro q j hd
    induction hd with
    | child hj hp => exact descends_between hw hn hj hp
    | @step j m hj hp hm ih =>
      intro k hqk hkj
      rcases Nat.lt_trichotomy k m with h | h | h
      · exact ih k hqk h
      · exact h ▸ hm
      · exact descends_trans hm (descends_between hw hn hj hp k h hkj)

/-! ## Removing an object -/

/-- C12 (removal keeps unrelated parents), the code at the scenario of the
claim: in [root, childOf(0), childOf(0)] the removal of node 1 leaves the
former node 2 at index 1, and lowers its parent from 0 to -1. -/
theorem removal_scenario :
    removeObject [named "root" (-1), named "first" 0, named "second" 0] 1 =
      [named "root" (-1), named "second" (-1)] := by
  decide

/-- C13 (removal preserves the tree invariant), the code on the valid pre-order
array [root, a, childOf(a), b] with a and b children of the root: the removal
of a leaves b with the parent index -2, which is neither -1 nor the index of
a node. -/
theorem removal_breaks_invariant :
    PreOrder [named "root" (-1), named "a" 0, named "a1" 1, named "b" 0] ∧
    removeObject [named "root" (-1), named "a" 0, named "a1" 1, named "b" 0] 1 =
      [named "root" (-1), named "b" (-2)] ∧
    ¬ WellParented
      (removeObject [named "root" (-1), named "a" 0, named "a1" 1, named "b" 0] 1) := by
  refine ⟨(preOrder_iff _).mpr (by decide), by decide, by decide⟩

/-- C14 (removal takes the whole subtree), the code on the valid pre-order
array [root, a, childOf(a), grandchildOf(a)]: the grandchild descends from a,
yet the removal of a deletes two nodes only and leaves the grandchild in the
array, as a child of the root. -/
theorem removal_keeps_grandchild :
    PreOrder [named "root" (-1), named "a" 0, named "a1" 1, named "a11" 2] ∧
    Descends [named "root" (-1), named "a" 0, named "a1" 1, named "a11" 2] 1 3 ∧
    removeObject [named "root" (-1), named "a" 0, named "a1" 1, named "a11" 2] 1 =
      [named "root" (-1), named "a11" 0] := by
  refine ⟨(preOrder_iff _).mpr (by decide), ?_, by decide⟩
  exact Descends.step (m := 2) (by decide) (by decide) (Descends.child (by decide) (by decide))

/-! ## Adding a child -/

theorem storedParent_spare (objects : List StellarObject) (capacity : Nat) (stale : Int)
    (p : Nat) (hspare : objects.length < capacity) :
    storedParent objects capacity stale p = p := by
  simp [storedParent, hspare]

/-- With spare capacity the stale value plays no part in the step. -/
theorem addChild_spare (objects : List StellarObject) (capacity : Nat) (stale : Int)
    (p : Nat) (hspare : objects.length < capacity) :
    addChild objects capacity stale p = addChild objects capacity 0 p := by
  simp only [addChild, storedParent, if_pos hspare]

theorem getElem?_addChild (objects : List StellarObject) (capacity : Nat) (stale : Int)
    (p : Nat) (hp : p < objects.length) (j : Nat) :
    (addChild objects capacity stale p)[j]? =
      if j ≤ p then objects[j]?
      else if j = p + 1 then
        some { StellarObject.fresh with parent := storedParent objects capacity stale p }
      else (objects[j - 1]?).map (raiseParent (storedParent objects capacity stale p)) := by
  have hlen : (List.take (p + 1) objects).length = p + 1 := by
    rw [List.length_take]; omega
  simp only [addChild, if_pos hp, List.append_assoc]
  by_cases h1 : j ≤ p
  · rw [if_pos h1, List.getElem?_append_left (by omega),
      List.getElem?_take_of_lt (by omega)]
  · rw [if_neg h1, List.getElem?_append_right (by omega), hlen]
    by_cases h2 : j = p + 1
    · subst h2
      simp
    · rw [if_neg h2]
      obtain ⟨d, rfl⟩ : ∃ d, j = p + 1 + (d + 1) := ⟨j - p - 2, by omega⟩
      have e1 : p + 1 + (d + 1) - (p + 1) = d + 1 := by omega
      have e2 : p + 1 + (d + 1) - 1 = p + 1 + d := by omega
      rw [e1, e2]
      simp only [List.singleton_append, List.getElem?_cons_succ, List.getElem?_map,
        List.getElem?_drop]

theorem length_addChild (objects : List StellarObject) (capacity : Nat) (stale : Int)
    (p : Nat) (hp : p < objects.length) :
    (addChild objects capacity stale p).length = objects.length + 1 := by
  simp only [addChild, if_pos hp, List.length_append, List.length_take, List.length_map,
    List.length_drop, List.length_singleton]
  omega

theorem parentAt_addChild (objects : List StellarObject) (capacity : Nat) (stale : Int)
    (p : Nat) (hp : p < objects.length) (j : Nat) :
    parentAt (addChild objects capacity stale p) j =
      if j ≤ p then parentAt objects j
      else if j = p + 1 then storedParent objects capacity stale p
      else if j - 1 < objects.length then
        (if parentAt objects (j - 1) ≥ storedParent objects capacity stale p then
          parentAt objects (j - 1) + 1
        else parentAt objects (j - 1))
      else -1 := by
  unfold parentAt
  rw [getElem?_addChild objects capacity stale p hp j]
  by_cases h1 : j ≤ p
  · simp only [if_pos h1]
  · simp only [if_neg h1]
    by_cases h2 : j = p + 1
    · simp only [if_pos h2]
    · simp only [if_neg h2]
      by_cases h3 : j - 1 < objects.length
      · rw [if_pos h3, List.getElem?_eq_getElem h3]
        simp only [Option.map_some', raiseParent]
        split <;> rfl
      · rw [if_neg h3, List.getElem?_eq_none (by omega)]
        rfl

theorem wellParented_addChild {objects : List StellarObject} (hw : WellParented objects)
    (capacity : Nat) (stale : Int) (p : Nat) (hp : p < objects.length)
    (hspare : objects.length < capacity) :
    WellParented (addChild objects capacity stale p) := by
  intro j hj
  rw [length_addChild objects capacity stale p hp] at hj
  rw [parentAt_addChild objects capacity stale p hp j,
    storedParent_spare objects capacity stale p hspare]
  by_cases h1 : j ≤ p
  · rw [if_pos h1]
    exact hw j (by omega)
  · rw [if_neg h1]
    by_cases h2 : j = p + 1
    · rw [if_pos h2]
      omega
    · have hj1 : j - 1 < objects.length := by omega
      rw [if_neg h2, if_pos hj1]
      have hb := hw (j - 1) hj1
      split <;> omega

theorem nested_addChild {objects : List StellarObject} (hw : WellParented objects)
    (hn : Nested objects) (capacity : Nat) (stale : Int) (p : Nat) (hp : p < objects.length)
    (hspare : objects.length < capacity) :
    Nested (addChild objects capacity stale p) := by
  intro j hj k hkj hlt
  rw [length_addChild objects capacity stale p hp] at hj
  rw [parentAt_addChild objects capacity stale p hp j,
    storedParent_spare objects capacity stale p hspare] at hlt ⊢
  rw [parentAt_addChild objects capacity stale p hp k,
    storedParent_spare objects capacity stale p hspare]
  by_cases h1 : j ≤ p
  · have hk : k ≤ p := by omega
    rw [if_pos h1] at hlt ⊢
    rw [if_pos hk]
    exact hn j (by omega) k hkj hlt
  · rw [if_neg h1] at hlt ⊢
    by_cases h2 : j = p + 1
    · rw [if_pos h2] at hlt ⊢
      omega
    · have hj1 : j - 1 < objects.length := by omega
      rw [if_neg h2, if_pos hj1] at hlt ⊢
      have hbj := hw (j - 1) hj1
      by_cases hk1 : k ≤ p
      · rw [if_pos hk1]
        have hnj := hn (j - 1) hj1 k (by omega)
        split at hlt <;> split <;> omega
      · rw [if_neg hk1]
        by_cases hk2 : k = p + 1
        · rw [if_pos hk2]
          split at hlt <;> split <;> omega
        · have hk3 : k - 1 < objects.length := by omega
          rw [if_neg hk2, if_pos hk3]
          have hnj := hn (j - 1) hj1 (k - 1) (by omega)
          have hbk := hw (k - 1) (by omega)
          split at hlt <;> split <;> split <;> omega

/-- When the vector has spare capacity, `Add Child` on an index of a valid
pre-order flattening gives a valid pre-order flattening. -/
theorem preOrder_addChild_spare (objects : List StellarObject) (capacity : Nat)
    (stale : Int) (p : Nat) (hvalid : PreOrder objects) (hp : p < objects.length)
    (hspare : objects.length < capacity) :
    PreOrder (addChild objects capacity stale p) := by
  obtain ⟨hw, hn⟩ := (preOrder_iff objects).mp hvalid
  exact (preOrder_iff _).mpr ⟨wellParented_addChild hw capacity stale p hp hspare,
    nested_addChild hw hn capacity stale p hp hspare⟩

/-- When the vector is at its capacity and the stale difference is below -1,
the new node gets that value as its parent index and the tree invariant is
lost, whatever the array was. -/
theorem not_wellParented_addChild_full (objects : List StellarObject) (capacity : Nat)
    (stale : Int) (p : Nat) (hp : p < objects.length) (hfull : ¬ objects.length < capacity)
    (hstale : stale < -1) :
    ¬ WellParented (addChild objects capacity stale p) := by
  intro hw
  have h := hw (p + 1) (by rw [length_addChild objects capacity stale p hp]; omega)
  rw [parentAt_addChild objects capacity stale p hp, if_neg (by omega), if_pos rfl] at h
  simp only [storedParent, if_neg hfull] at h
  omega

/-- C15 (insertion position), where the claim fails: the root of [root, child]
has one descendant, so the claim places the new node at index 2; the code
places it at index 1, directly after the root and before the child (here in a
vector with spare capacity, so that the parent index of the new node is the
one meant). -/
theorem insertion_position_counterexample :
    (addChild [named "root" (-1), named "child" 0] 4 0 0)[1]? = some (node 0) ∧
    (addChild [named "root" (-1), named "child" 0] 4 0 0)[2]? ≠ some (node 0) := by
  decide

/-- C15 as amended: `Add Child` on the node at index `p` grows the array by
exactly one node; the new node stands at index `p + 1`, directly after the node
`p` and before its existing descendants, and its parent index is `p` when the
vector has spare capacity; the nodes up to `p` keep their place and the later
nodes move up by one place, with their payload. -/
theorem insertion_position (objects : List StellarObject) (capacity : Nat) (stale : Int)
    (p : Nat) (hp : p < objects.length) :
    (addChild objects capacity stale p).length = objects.length + 1 ∧
    (∃ parent, (addChild objects capacity stale p)[p + 1]? =
        some { StellarObject.fresh with parent := parent } ∧
      (objects.length < capacity → parent = (p : Int))) ∧
    (∀ j, j ≤ p → (addChild objects capacity stale p)[j]? = objects[j]?) ∧
    (∀ j object, p < j → objects[j]? = some object →
      ∃ parent, (addChild objects capacity stale p)[j + 1]? =
        some { object with parent := parent }) := by
  refine ⟨length_addChild objects capacity stale p hp, ?_, ?_, ?_⟩
  · refine ⟨storedParent objects capacity stale p, ?_,
      storedParent_spare objects capacity stale p⟩
    rw [getElem?_addChild objects capacity stale p hp]
    simp
  · intro j hj
    rw [getElem?_addChild objects capacity stale p hp, if_pos hj]
  · intro j object hj hget
    rw [getElem?_addChild objects capacity stale p hp, if_neg (by omega), if_neg (by omega)]
    simp only [Nat.add_sub_cancel, hget, Option.map_some', raiseParent]
    split
    · exact ⟨_, rfl⟩
    · exact ⟨object.parent, rfl⟩

/-- Witness of C15 as amended: a child added to node 1 of [root, a, childOf(a),
b], held in a vector of capacity 8. -/
theorem insertion_position_witness :
    (addChild [named "root" (-1), named "a" 0, named "a1" 1, named "b" 0] 8 0 1).length = 5 ∧
    (addChild [named "root" (-1), named "a" 0, named "a1" 1, named "b" 0] 8 0 1)[2]? =
      some (node 1) := by
  obtain ⟨hlen, ⟨parent, hnew, hparent⟩, _, _⟩ :=
    insertion_position [named "root" (-1), named "a" 0, named "a1" 1, named "b" 0] 8 0 1
      (by decide)
  have hp : parent = ((1 : Nat) : Int) := hparent (by decide)
  subst hp
  exact ⟨hlen, hnew⟩

/-- C16 (insertion reindexing), the code on [root, child] with a child added to
the root, in a vector with spare capacity: the new node is inserted at index 1,
the parent index 0 of the old child is below that index, yet it is raised to 1,
so the old child is no longer a child of the root but of the new node. -/
theorem insertion_reindexing_scenario (stale : Int) :
    addChild [named "root" (-1), named "child" 0] 4 stale 0 =
      [named "root" (-1), node 0, named "child" 1] := by
  rw [addChild_spare [named "root" (-1), named "child" 0] 4 stale 0 (by decide)]
  decide

/-- C17 (insertion preserves the tree invariant), the code on the valid
pre-order array [root, a, childOf(a), b] held in a vector whose size has
reached its capacity, with a child added to a: `emplace` reallocates, line 674
reads the invalidated iterator, and with the difference -109 the new node gets
the parent index -109, which is neither -1 nor the index of a node. -/
theorem insertion_breaks_invariant :
    PreOrder [named "root" (-1), named "a" 0, named "a1" 1, named "b" 0] ∧
    addChild [named "root" (-1), named "a" 0, named "a1" 1, named "b" 0] 4 (-109) 1 =
      [named "root" (-1), named "a" 0, node (-109), named "a1" 2, named "b" 1] ∧
    ¬ WellParented
      (addChild [named "root" (-1), named "a" 0, named "a1" 1, named "b" 0] 4 (-109) 1) := by
  refine ⟨(preOrder_iff _).mpr (by decide), by decide, by decide⟩

/-! ## The depth of an object -/

theorem ancestorCount_unique {objects : List StellarObject} {i : Int} {n m : Nat}
    (h1 : AncestorCount objects i n) (h2 : AncestorCount objects i m) : n = m := by
  induction h1 generalizing m with
  | root =>
    cases h2 with
    | root => rfl
  | @step a object n hget _ ih =>
    generalize hi : (a : Int) = i at h2
    cases h2 with
    | root => omega
    | @step b object2 n2 hget2 hrest =>
      have hab : a = b := by omega
      subst hab
      rw [hget] at hget2
      cases hget2
      rw [ih hrest]

theorem parentWalk_spec {objects : List StellarObject} (hw : WellParented objects) (fuel : Nat) :
    ∀ (i : Int) (nested : Nat), -1 ≤ i → i < objects.length → i + 1 < fuel →
      ∃ n, parentWalk objects fuel i nested = .ok (nested + n) ∧ AncestorCount objects i n := by
  induction fuel with
  | zero =>
    intro i nested h1 _ h3
    omega
  | succ fuel ih =>
    intro i nested h1 h2 h3
    by_cases hi : i = -1
    · subst hi
      exact ⟨0, by simp [parentWalk], AncestorCount.root⟩
    · have h0 : 0 ≤ i := by omega
      have hlt : i.toNat < objects.length := by omega
      have hget : objects[i.toNat]? = some objects[i.toNat] := List.getElem?_eq_getElem hlt
      have hpar := parentAt_of_getElem? hget
      have hbound := hw _ hlt
      rw [hpar] at hbound
      obtain ⟨n, hwalk, hcount⟩ := ih objects[i.toNat].parent (nested + 1)
        (by omega) (by omega) (by omega)
      refine ⟨n + 1, ?_, ?_⟩
      · rw [parentWalk, if_pos hi, if_pos h0, hget]
        simp only [hwalk]
        congr 1
        omega
      · have hcast : ((i.toNat : Nat) : Int) = i := by omega
        rw [← hcast]
        exact AncestorCount.step hget hcount

/-- C18 (indentation equals depth): for an object array with the tree
invariant and every object of it, the parent walk of `WriteObject` ends, the
number it counts is the number of ancestors of the object, and the output is
that many `BeginChild` calls, the object line with its child block, and that
many `EndChild` calls. -/
theorem indentation_equals_depth (objects : List StellarObject) (hw : WellParented objects)
    (object : StellarObject) (hmem : object ∈ objects) (add : Bool) :
    ∃ nested, AncestorCount objects object.parent nested ∧
      (∀ m, AncestorCount objects object.parent m → m = nested) ∧
      WriteObject objects object add = .ok
        (List.replicate nested .beginChild
          ++ [objectLine object add nested, .beginChild] ++ objectFields object ++ [.endChild]
          ++ List.replicate nested .endChild) := by
  obtain ⟨j, hj, hget⟩ := List.getElem_of_mem hmem
  have hget? : objects[j]? = some object := by rw [List.getElem?_eq_getElem hj, hget]
  have hbound := hw j hj
  rw [parentAt_of_getElem? hget?] at hbound
  obtain ⟨n, hwalk, hcount⟩ := parentWalk_spec hw (objects.length + 1) object.parent 0
    (by omega) (by omega) (by omega)
  refine ⟨n, hcount, fun m hm => ancestorCount_unique hm hcount, ?_⟩
  simp only [WriteObject, hwalk, Nat.zero_add]

/-- Witness of C18: the grandchild of a chain root, child, grandchild is
written at depth two. -/
theorem indentation_equals_depth_witness :
    ∃ nested, AncestorCount [named "root" (-1), named "a" 0, named "a1" 1] 1 nested ∧
      (∀ m, AncestorCount [named "root" (-1), named "a" 0, named "a1" 1] 1 m → m = nested) ∧
      WriteObject [named "root" (-1), named "a" 0, named "a1" 1] (named "a1" 1) true = .ok
        (List.replicate nested .beginChild
          ++ [objectLine (named "a1" 1) true nested, .beginChild]
          ++ objectFields (named "a1" 1) ++ [.endChild]
          ++ List.replicate nested .endChild) :=
  indentation_equals_depth [named "root" (-1), named "a" 0, named "a1" 1] (by decide)
    (named "a1" 1) (by decide) true


/-! ## The arrival distances of a new system -/

/-- C19 (diffing is total), the code on a system without base whose hyperspace
arrival distance is 0 and whose jump arrival distance is 5: the distances
differ, so the child block is written, and the test of line 885 reads
`diff->extraHyperArrivalDistance` with a null `diff`. -/
theorem arrival_without_base_faults (WriteDiff : WriteDiffFn) :
    WriteToFile WriteDiff (plainSystem 0 5 []) none = .error .nullDeref :=
  rfl

/-! ## The object block of a system with a base -/

end SystemEditor
